import Mathlib

/-!
Verification development for the Seafile FileLink Thunderbird extension.

The definitions below are a shallow embedding of `src/background.js` and of
the `loginManager` experiment API (the unnamed source file implementing
`saveCredentials` / `getCredentials` / `removeCredentials` /
`removeAllForHost`).  External platform facilities (the WHATWG `URL`
constructor, `fetch`, the `nsILoginManager` store, `storage.local`) are
modelled explicitly: the credential store as a list of login entries, the
config store as an association list, and the network as an oracle record
whose fields give the response of each endpoint.
-/

set_option maxHeartbeats 1000000

namespace Seafile

/-! ### Generic list-of-characters helpers -/

/-- `hasPair x l` is true iff `l` contains two adjacent occurrences of `x`,
i.e. the two-character string `xx` occurs as a substring. -/
def hasPair (x : Char) : List Char → Bool
  | [] => false
  | [_] => false
  | a :: b :: rest => if a = x ∧ b = x then true else hasPair x (b :: rest)

theorem hasPair_cons_of_ne (x a : Char) (l : List Char) (h : a ≠ x) :
    hasPair x (a :: l) = hasPair x l := by
  cases l with
  | nil => simp [hasPair]
  | cons b t =>
    rw [hasPair, if_neg (fun h' : a = x ∧ b = x => h h'.1)]

/-! ### Path sanitizer (`sanitizePath` in `background.js`)

`path.replace(/\.\./g, "")` removes the non-overlapping occurrences of
`..`, scanning left to right; `replace(/\/+/g, "/")` collapses each maximal
run of slashes to a single slash; finally a leading slash is forced. -/

/-- Left-to-right removal of non-overlapping `..` occurrences, the semantics
of `path.replace(/\.\./g, "")`. -/
def stripDotDot : List Char → List Char
  | [] => []
  | [c] => [c]
  | a :: b :: rest =>
      if a = '.' ∧ b = '.' then stripDotDot rest
      else a :: stripDotDot (b :: rest)

/-- Collapsing each maximal run of `/` to a single `/`, the semantics of
`.replace(/\/+/g, "/")`. -/
def collapseSlashes : List Char → List Char
  | [] => []
  | [c] => [c]
  | a :: b :: rest =>
      if a = '/' ∧ b = '/' then collapseSlashes (b :: rest)
      else a :: collapseSlashes (b :: rest)

/-- `sanitizePath` from `background.js`: empty input maps to `"/"`, else
`..` occurrences are removed, slash runs collapsed, and a leading slash
forced.  (`!path` in JS is true exactly for the empty string here.) -/
def sanitizePath (path : String) : String :=
  if path.data = [] then "/"
  else
    let clean := collapseSlashes (stripDotDot path.data)
    if clean.head? = some '/' then String.mk clean else String.mk ('/' :: clean)

theorem stripDotDot_head (l : List Char) (a : Char) (ha : l.head? = some a)
    (hne : a ≠ '.') : (stripDotDot l).head? = some a := by
  match l with
  | [] => simp at ha
  | [c] =>
    simp at ha
    subst ha
    simp [stripDotDot]
  | b :: c :: rest =>
    simp at ha
    subst ha
    have hcond : ¬ (b = '.' ∧ c = '.') := fun h => hne h.1
    rw [stripDotDot, if_neg hcond]
    simp

theorem stripDotDot_no_pair (l : List Char) :
    hasPair '.' (stripDotDot l) = false := by
  induction l using stripDotDot.induct with
  | case1 => simp [stripDotDot, hasPair]
  | case2 c => simp [stripDotDot, hasPair]
  | case3 a b rest h ih =>
    rw [stripDotDot, if_pos h]; exact ih
  | case4 a b rest h ih =>
    rw [stripDotDot, if_neg h]
    by_cases hadot : a = '.'
    · subst hadot
      have hb : b ≠ '.' := fun hb => h ⟨rfl, hb⟩
      have hhead := stripDotDot_head (b :: rest) b (by simp) hb
      obtain ⟨m, hm⟩ : ∃ m, stripDotDot (b :: rest) = b :: m := by
        cases hsd : stripDotDot (b :: rest) with
        | nil => rw [hsd] at hhead; simp at hhead
        | cons x xs =>
          rw [hsd] at hhead; simp at hhead
          exact ⟨xs, by rw [hhead]⟩
      rw [hm]
      have : ¬ ('.' = '.' ∧ b = '.') := fun h' => hb h'.2
      rw [hasPair, if_neg this, ← hm]
      exact ih
    · rw [hasPair_cons_of_ne '.' a _ hadot]
      exact ih

theorem collapseSlashes_head (l : List Char) :
    (collapseSlashes l).head? = l.head? := by
  induction l using collapseSlashes.induct with
  | case1 => simp [collapseSlashes]
  | case2 c => simp [collapseSlashes]
  | case3 a b rest h ih =>
    rw [collapseSlashes, if_pos h, ih]
    simp [h.1, h.2]
  | case4 a b rest h ih =>
    rw [collapseSlashes, if_neg h]
    simp

theorem collapseSlashes_no_pair (l : List Char) :
    hasPair '/' (collapseSlashes l) = false := by
  induction l using collapseSlashes.induct with
  | case1 => simp [collapseSlashes, hasPair]
  | case2 c => simp [collapseSlashes, hasPair]
  | case3 a b rest h ih =>
    rw [collapseSlashes, if_pos h]; exact ih
  | case4 a b rest h ih =>
    rw [collapseSlashes, if_neg h]
    by_cases haslash : a = '/'
    · subst haslash
      have hb : b ≠ '/' := fun hb => h ⟨rfl, hb⟩
      have hhead : (collapseSlashes (b :: rest)).head? = some b := by
        rw [collapseSlashes_head]; simp
      obtain ⟨m, hm⟩ : ∃ m, collapseSlashes (b :: rest) = b :: m := by
        cases hsd : collapseSlashes (b :: rest) with
        | nil => rw [hsd] at hhead; simp at hhead
        | cons x xs =>
          rw [hsd] at hhead; simp at hhead
          exact ⟨xs, by rw [hhead]⟩
      rw [hm]
      have : ¬ ('/' = '/' ∧ b = '/') := fun h' => hb h'.2
      rw [hasPair, if_neg this, ← hm]
      exact ih
    · rw [hasPair_cons_of_ne '/' a _ haslash]
      exact ih

theorem collapseSlashes_pres_no_pair (l : List Char)
    (h : hasPair '.' l = false) :
    hasPair '.' (collapseSlashes l) = false := by
  induction l using collapseSlashes.induct with
  | case1 => simp [collapseSlashes, hasPair]
  | case2 c => simp [collapseSlashes, hasPair]
  | case3 a b rest hc ih =>
    rw [collapseSlashes, if_pos hc]
    apply ih
    obtain ⟨ha, hb⟩ := hc
    subst ha hb
    rw [hasPair_cons_of_ne '.' '/' _ (by decide)] at h
    exact h
  | case4 a b rest hc ih =>
    rw [collapseSlashes, if_neg hc]
    by_cases hadot : a = '.'
    · subst hadot
      have hb : b ≠ '.' := by
        intro hb
        rw [hasPair, if_pos ⟨rfl, hb⟩] at h
        exact absurd h (by decide)
      have hstep : hasPair '.' (b :: rest) = false := by
        rw [hasPair] at h
        rw [if_neg (fun h' : ('.' : Char) = '.' ∧ b = '.' => hb h'.2)] at h
        exact h
      have hhead : (collapseSlashes (b :: rest)).head? = some b := by
        rw [collapseSlashes_head]; simp
      obtain ⟨m, hm⟩ : ∃ m, collapseSlashes (b :: rest) = b :: m := by
        cases hsd : collapseSlashes (b :: rest) with
        | nil => rw [hsd] at hhead; simp at hhead
        | cons x xs =>
          rw [hsd] at hhead; simp at hhead
          exact ⟨xs, by rw [hhead]⟩
      rw [hm]
      have : ¬ ('.' = '.' ∧ b = '.') := fun h' => hb h'.2
      rw [hasPair, if_neg this, ← hm]
      exact ih hstep
    · rw [hasPair_cons_of_ne '.' a _ hadot]
      apply ih
      rw [hasPair_cons_of_ne '.' a _ hadot] at h
      exact h

theorem head_ne_of_no_pair (x : Char) (m : List Char)
    (h : hasPair x (x :: m) = false) : m.head? ≠ some x := by
  cases m with
  | nil => simp
  | cons b t =>
    intro hb
    simp at hb
    subst hb
    rw [hasPair, if_pos ⟨rfl, rfl⟩] at h
    exact absurd h (by decide)

/-- C2: for every input string containing a `..` occurrence or repeated
separators, the sanitizer output contains no `..`, contains no repeated
separator, and begins with exactly one separator. -/
theorem C2_sanitizePath_clean (path : String)
    (h : hasPair '.' path.data = true ∨ hasPair '/' path.data = true) :
    hasPair '.' (sanitizePath path).data = false ∧
    hasPair '/' (sanitizePath path).data = false ∧
    (sanitizePath path).data.head? = some '/' ∧
    (sanitizePath path).data.tail.head? ≠ some '/' := by
  have hne : path.data ≠ [] := by
    intro hnil
    rw [hnil] at h
    rcases h with h | h <;> exact absurd h (by simp [hasPair])
  rw [sanitizePath, if_neg hne]
  have hdot : hasPair '.' (collapseSlashes (stripDotDot path.data)) = false :=
    collapseSlashes_pres_no_pair _ (stripDotDot_no_pair path.data)
  have hslash : hasPair '/' (collapseSlashes (stripDotDot path.data)) = false :=
    collapseSlashes_no_pair _
  by_cases hhead : (collapseSlashes (stripDotDot path.data)).head? = some '/'
  · rw [if_pos hhead]
    obtain ⟨m, hm⟩ : ∃ m, collapseSlashes (stripDotDot path.data) = '/' :: m := by
      cases hsd : collapseSlashes (stripDotDot path.data) with
      | nil => rw [hsd] at hhead; simp at hhead
      | cons x xs =>
        rw [hsd] at hhead; simp at hhead
        exact ⟨xs, by rw [hhead]⟩
    rw [hm] at hdot hslash ⊢
    refine ⟨hdot, hslash, by simp, ?_⟩
    simpa using head_ne_of_no_pair '/' m hslash
  · rw [if_neg hhead]
    refine ⟨?_, ?_, by simp, ?_⟩
    · show hasPair '.' ('/' :: collapseSlashes (stripDotDot path.data)) = false
      rw [hasPair_cons_of_ne '.' '/' _ (by decide)]
      exact hdot
    · show hasPair '/' ('/' :: collapseSlashes (stripDotDot path.data)) = false
      cases hsd : collapseSlashes (stripDotDot path.data) with
      | nil => simp [hasPair]
      | cons b t =>
        have hb : b ≠ '/' := by
          intro hb
          rw [hsd, hb] at hhead
          simp at hhead
        rw [hasPair, if_neg (fun h' => hb h'.2), ← hsd]
        exact hslash
    · show ('/' :: collapseSlashes (stripDotDot path.data)).tail.head? ≠ some '/'
      simpa using hhead

/-- Witness for C2 at the concrete input `"/a//b/../c"`. -/
theorem C2_sanitizePath_clean_witness :
    (hasPair '.' ("/a//b/../c" : String).data = true ∨
      hasPair '/' ("/a//b/../c" : String).data = true) ∧
    (hasPair '.' (sanitizePath "/a//b/../c").data = false ∧
      hasPair '/' (sanitizePath "/a//b/../c").data = false ∧
      (sanitizePath "/a//b/../c").data.head? = some '/' ∧
      (sanitizePath "/a//b/../c").data.tail.head? ≠ some '/') :=
  ⟨by decide, C2_sanitizePath_clean "/a//b/../c" (by decide)⟩

/-! ### Positive-integer clamp (`validatePositiveInt` in `background.js`)

`parseInt` of an integer value is the value itself; `NaN` cannot arise for
the `Int`-typed inputs the callers pass. -/

/-- `validatePositiveInt(value, max, fallback)`: negative (or NaN) input
yields the fallback, otherwise the value clamped from above by `maxV`. -/
def validatePositiveInt (value maxV fallback : Int) : Int :=
  if value < 0 then fallback else min value maxV

/-! ### Share-link request body (`SeafileAPI.createShareLink`) -/

/-- The JSON body transmitted by `createShareLink`; `none` in an optional
field means the field is omitted from the transmitted JSON. -/
structure ShareBody where
  repo_id : String
  path : String
  password : Option String
  expire_days : Option Int
deriving DecidableEq, Repr

/-- Body construction in `createShareLink`: the password field is included
only for a non-empty string (`options.password && typeof === "string" &&
length > 0`), the expiry field only for a truthy positive value
(`options.expireDays && options.expireDays > 0`), clamped through
`validatePositiveInt`. -/
def shareLinkBody (repoId path : String) (password : Option String)
    (expireDays : Option Int) : ShareBody :=
  { repo_id := repoId
    path := sanitizePath path
    password :=
      match password with
      | some p => if p ≠ "" then some p else none
      | none => none
    expire_days :=
      match expireDays with
      | some e => if e ≠ 0 ∧ 0 < e then some (validatePositiveInt e 365 0) else none
      | none => none }

/-- C8: `createShareLink` omits the password and expiry fields when absent,
and every transmitted expiry value lies in `[0, 365]`, with values above
`365` sent as exactly `365`. -/
theorem C8_shareLinkBody_clamped (repoId path : String) (pw : Option String)
    (e : Option Int) :
    (pw = none → (shareLinkBody repoId path pw e).password = none) ∧
    (e = none → (shareLinkBody repoId path pw e).expire_days = none) ∧
    (∀ d : Int, e = some d → 365 < d →
      (shareLinkBody repoId path pw e).expire_days = some 365) ∧
    (∀ v : Int, (shareLinkBody repoId path pw e).expire_days = some v →
      0 ≤ v ∧ v ≤ 365) := by
  refine ⟨?_, ?_, ?_, ?_⟩
  · intro h; subst h; simp [shareLinkBody]
  · intro h; subst h; simp [shareLinkBody]
  · intro d hd hgt
    subst hd
    have hpos : d ≠ 0 ∧ 0 < d := ⟨by omega, by omega⟩
    simp only [shareLinkBody, if_pos hpos]
    have : validatePositiveInt d 365 0 = 365 := by
      rw [validatePositiveInt, if_neg (by omega)]
      exact min_eq_right (by omega)
    rw [this]
  · intro v hv
    cases e with
    | none => simp [shareLinkBody] at hv
    | some d =>
      by_cases hpos : d ≠ 0 ∧ 0 < d
      · simp only [shareLinkBody, if_pos hpos] at hv
        have hv' : validatePositiveInt d 365 0 = v := by
          simpa using hv
        rw [validatePositiveInt, if_neg (by omega)] at hv'
        subst hv'
        constructor
        · exact le_min (by omega) (by omega)
        · exact min_le_right _ _
      · simp only [shareLinkBody, if_neg hpos] at hv
        exact absurd hv (by simp)

/-- Witness for C8 at repo `"lib1"`, path `"/T"`, no password, expiry 400. -/
theorem C8_shareLinkBody_clamped_witness :
    (shareLinkBody "lib1" "/T" none (some 400)).password = none ∧
    (shareLinkBody "lib1" "/T" none (some 400)).expire_days = some 365 ∧
    (0 ≤ (365 : Int) ∧ (365 : Int) ≤ 365) :=
  ⟨(C8_shareLinkBody_clamped "lib1" "/T" none (some 400)).1 rfl,
   (C8_shareLinkBody_clamped "lib1" "/T" none (some 400)).2.2.1 400 rfl (by omega),
   (C8_shareLinkBody_clamped "lib1" "/T" none (some 400)).2.2.2 365
     ((C8_shareLinkBody_clamped "lib1" "/T" none (some 400)).2.2.1 400 rfl
       (by omega))⟩

/-! ### Model of the WHATWG `URL` platform API

`validateServerUrl` (background.js) and `validateHostname` (loginManager
experiment) both trim the input, strip trailing slashes, parse it as a URL
and return the parsed origin (`parsed.origin` / `uri.prePath`).  The URL
parser is a platform facility; it is modelled here executably: scheme up to
`:`, then `://`, then the authority up to a separator, split into hostname
and decimal port, with scheme and hostname lowercased and default ports
(443 for https, 80 for http) dropped from the origin, as the platform does.
-/

/-- A character ending the authority section of a URL. -/
def isSepChar (c : Char) : Bool := c == '/' || c == '\\' || c == '?' || c == '#'

/-- Decimal value of a digit string. -/
def natOfDigits (l : List Char) : Nat :=
  l.foldl (fun a c => a * 10 + (c.toNat - 48)) 0

/-- Is `n` the default port of `scheme`? -/
def isDefaultPort (scheme : List Char) (n : Nat) : Bool :=
  (scheme == "https".data && n == 443) || (scheme == "http".data && n == 80)

/-- Parsed URL: lowercased scheme, lowercased hostname (no port), and the
port digits when present and non-default. -/
structure URLRec where
  scheme : List Char
  hostname : List Char
  port : Option (List Char)
deriving DecidableEq, Repr

/-- Recognize `://` after the scheme. -/
def afterScheme : List Char → Option (List Char)
  | ':' :: '/' :: '/' :: rest => some rest
  | _ => none

/-- Parse the port digits after the authority's `:`; empty port and default
ports normalize to no port. -/
def parsePort (schemeL : List Char) (pd : List Char) : Option (Option (List Char)) :=
  if pd.all Char.isDigit then
    if pd = [] then some none
    else if isDefaultPort schemeL (natOfDigits pd) then some none
    else some (some pd)
  else none

/-- Parse the authority section: hostname (lowercased, must be non-empty
and whitespace-free) and optional port after `:`. -/
def parseAuthority (schemeL auth : List Char) : Option URLRec :=
  if auth.takeWhile (· != ':') = [] then none
  else if !(auth.takeWhile (· != ':')).all (fun c => !c.isWhitespace) then none
  else
    match auth.dropWhile (· != ':') with
    | [] => some ⟨schemeL, (auth.takeWhile (· != ':')).map Char.toLower, none⟩
    | _ :: pd =>
      match parsePort schemeL pd with
      | some port => some ⟨schemeL, (auth.takeWhile (· != ':')).map Char.toLower, port⟩
      | none => none

/-- The URL parser model: `none` models the `URL` constructor throwing. -/
def parseURL (l : List Char) : Option URLRec :=
  match afterScheme (l.dropWhile (· != ':')) with
  | none => none
  | some rest =>
    if l.takeWhile (· != ':') = [] then none
    else parseAuthority ((l.takeWhile (· != ':')).map Char.toLower)
          (rest.takeWhile (fun c => !isSepChar c))

/-- `URL.origin` / `nsIURI.prePath` of a parsed URL. -/
def originChars (u : URLRec) : List Char :=
  u.scheme ++ ':' :: '/' :: '/' :: u.hostname ++
    (match u.port with
     | none => []
     | some pd => ':' :: pd)

/-- Strip the given trailing characters, as `/X+$/` replacement does. -/
def dropTrailing (p : Char → Bool) (l : List Char) : List Char :=
  (l.reverse.dropWhile p).reverse

/-- `String.prototype.trim`: strip leading and trailing whitespace. -/
def trimChars (l : List Char) : List Char :=
  dropTrailing Char.isWhitespace (l.dropWhile Char.isWhitespace)

/-- `.replace(/\/+$/, "")`: strip trailing slashes. -/
def stripTrailingSlashes (l : List Char) : List Char :=
  dropTrailing (· == '/') l

/-! ### List and character lemmas for the URL model -/

theorem takeWhile_all_true {α} (p : α → Bool) (a : List α)
    (h : ∀ c ∈ a, p c = true) : a.takeWhile p = a := by
  induction a with
  | nil => rfl
  | cons x t ih =>
    rw [List.takeWhile_cons, if_pos (h x (by simp)),
      ih (fun c hc => h c (by simp [hc]))]

theorem dropWhile_all_true {α} (p : α → Bool) (a : List α)
    (h : ∀ c ∈ a, p c = true) : a.dropWhile p = [] := by
  induction a with
  | nil => rfl
  | cons x t ih =>
    rw [List.dropWhile_cons, if_pos (h x (by simp))]
    exact ih (fun c hc => h c (by simp [hc]))

theorem dropWhile_all_false {α} (p : α → Bool) (a : List α)
    (h : ∀ c ∈ a, p c = false) : a.dropWhile p = a := by
  cases a with
  | nil => rfl
  | cons x t =>
    rw [List.dropWhile_cons, if_neg (by simp [h x (by simp)])]

theorem takeWhile_append_stop {α} (p : α → Bool) (a b : List α) (x : α)
    (h : ∀ c ∈ a, p c = true) (hx : p x = false) :
    (a ++ x :: b).takeWhile p = a := by
  induction a with
  | nil => simp [List.takeWhile_cons, hx]
  | cons y t ih =>
    rw [List.cons_append, List.takeWhile_cons, if_pos (h y (by simp)),
      ih (fun c hc => h c (by simp [hc]))]

theorem dropWhile_append_stop {α} (p : α → Bool) (a b : List α) (x : α)
    (h : ∀ c ∈ a, p c = true) (hx : p x = false) :
    (a ++ x :: b).dropWhile p = x :: b := by
  induction a with
  | nil => simp [List.dropWhile_cons, hx]
  | cons y t ih =>
    rw [List.cons_append, List.dropWhile_cons, if_pos (h y (by simp))]
    exact ih (fun c hc => h c (by simp [hc]))

theorem mem_of_mem_takeWhile {α} (p : α → Bool) (l : List α) (x : α)
    (h : x ∈ l.takeWhile p) : x ∈ l := by
  induction l with
  | nil => simp at h
  | cons y t ih =>
    rw [List.takeWhile_cons] at h
    by_cases hp : p y = true
    · rw [if_pos hp] at h
      rcases List.mem_cons.mp h with h | h
      · simp [h]
      · simp [ih h]
    · rw [if_neg hp] at h
      simp at h

theorem dropTrailing_eq_self_of_last (p : Char → Bool) (l init : List Char)
    (a : Char) (hl : l = init ++ [a]) (ha : p a = false) :
    dropTrailing p l = l := by
  subst hl
  rw [dropTrailing, List.reverse_append]
  simp only [List.reverse_cons, List.reverse_nil, List.nil_append,
    List.singleton_append, List.dropWhile_cons]
  rw [if_neg (by simp [ha])]
  simp

theorem trimChars_eq_self (l : List Char)
    (h : ∀ c ∈ l, c.isWhitespace = false) : trimChars l = l := by
  rw [trimChars, dropWhile_all_false _ _ h, dropTrailing,
    dropWhile_all_false _ _ (fun c hc => h c (List.mem_reverse.mp hc))]
  simp

/-- Either `toLower` leaves the character unchanged, or the result is a
basic lowercase Latin letter. -/
theorem toLower_eq_self_or (c : Char) :
    Char.toLower c = c ∨
      (97 ≤ (Char.toLower c).toNat ∧ (Char.toLower c).toNat ≤ 122) := by
  simp only [Char.toLower]
  split
  case isTrue h =>
    right
    obtain ⟨h1, h2⟩ := h
    set n := Char.toNat c with hn
    interval_cases n <;> decide
  case isFalse h => left; rfl

theorem toLower_eq_self_of_ge (c : Char) (h : 97 ≤ c.toNat) :
    Char.toLower c = c := by
  simp only [Char.toLower]
  rw [if_neg]
  omega

theorem toLower_toLower (c : Char) :
    Char.toLower (Char.toLower c) = Char.toLower c := by
  rcases toLower_eq_self_or c with h | ⟨h1, _⟩
  · rw [h]; exact h
  · exact toLower_eq_self_of_ge _ h1

theorem map_toLower_idem (l : List Char) :
    (l.map Char.toLower).map Char.toLower = l.map Char.toLower := by
  rw [List.map_map]
  exact List.map_congr_left (fun c _ => toLower_toLower c)

/-- `toLower` cannot produce a character outside the lowercase Latin range
that the input did not already equal. -/
theorem toLower_ne (c b : Char) (hb : b.toNat < 97 ∨ 122 < b.toNat)
    (hcb : c ≠ b) : Char.toLower c ≠ b := by
  intro he
  rcases toLower_eq_self_or c with h | ⟨h1, h2⟩
  · exact hcb (h ▸ he)
  · rw [he] at h1 h2
    omega

theorem isSepChar_cases (c : Char) (h : isSepChar c = true) :
    c = '/' ∨ c = '\\' ∨ c = '?' ∨ c = '#' := by
  simp only [isSepChar, Bool.or_eq_true, beq_iff_eq] at h
  tauto

theorem ws_cases (c : Char) (h : c.isWhitespace = true) :
    c = ' ' ∨ c = '\t' ∨ c = '\r' ∨ c = '\n' := by
  simp only [Char.isWhitespace, Bool.or_eq_true, decide_eq_true_eq] at h
  tauto

theorem toLower_not_ws (c : Char) (h : c.isWhitespace = false) :
    (Char.toLower c).isWhitespace = false := by
  by_contra hws
  rw [Bool.not_eq_false] at hws
  rcases ws_cases _ hws with he | he | he | he <;>
    · refine toLower_ne c _ (by decide) ?_ he
      intro hc; rw [hc] at h; exact absurd h (by decide)

/-- A hostname character: not a port separator, not an authority
terminator, not whitespace. -/
def goodHostChar (c : Char) : Bool :=
  (c != ':') && !isSepChar c && !c.isWhitespace

theorem goodHostChar_split (c : Char) (h : goodHostChar c = true) :
    (c != ':') = true ∧ isSepChar c = false ∧ c.isWhitespace = false := by
  rw [goodHostChar, Bool.and_eq_true, Bool.and_eq_true] at h
  exact ⟨h.1.1, by simpa using h.1.2, by simpa using h.2⟩

theorem goodHostChar_intro (c : Char) (h1 : (c != ':') = true)
    (h2 : isSepChar c = false) (h3 : c.isWhitespace = false) :
    goodHostChar c = true := by
  rw [goodHostChar, h1, h2, h3]
  rfl

theorem goodHostChar_toLower (c : Char) (h : goodHostChar c = true) :
    goodHostChar (Char.toLower c) = true := by
  obtain ⟨h1, h2, h3⟩ := goodHostChar_split c h
  refine goodHostChar_intro _ ?_ ?_ (toLower_not_ws c h3)
  · simp only [bne_iff_ne]
    refine toLower_ne c ':' (by decide) ?_
    simpa using h1
  · by_contra hsep
    rw [Bool.not_eq_false] at hsep
    rcases isSepChar_cases _ hsep with he | he | he | he <;>
      · refine toLower_ne c _ (by decide) ?_ he
        intro hc; rw [hc] at h2; exact absurd h2 (by decide)

theorem isDigit_good (c : Char) (h : c.isDigit = true) :
    (c != ':') = true ∧ isSepChar c = false ∧ c.isWhitespace = false ∧
      (c == '/') = false := by
  refine ⟨?_, ?_, ?_, ?_⟩
  · simp only [bne_iff_ne]
    intro he; subst he; exact absurd h (by decide)
  · by_contra hsep
    rw [Bool.not_eq_false] at hsep
    rcases isSepChar_cases _ hsep with he | he | he | he <;>
      (subst he; exact absurd h (by decide))
  · by_contra hws
    rw [Bool.not_eq_false] at hws
    rcases ws_cases _ hws with he | he | he | he <;>
      (subst he; exact absurd h (by decide))
  · simp only [beq_eq_false_iff_ne]
    intro he; subst he; exact absurd h (by decide)

/-! ### Parser invariants and the origin round trip -/

theorem parsePort_inv (schemeL pd : List Char) (port : Option (List Char))
    (h : parsePort schemeL pd = some port) (q : List Char)
    (hq : port = some q) :
    q ≠ [] ∧ q.all Char.isDigit = true ∧
      isDefaultPort schemeL (natOfDigits q) = false := by
  rw [parsePort] at h
  split at h
  next hdig =>
    split at h
    next =>
      injection h with h'
      rw [← h'] at hq
      exact absurd hq (by simp)
    next hnil =>
      split at h
      next =>
        injection h with h'
        rw [← h'] at hq
        exact absurd hq (by simp)
      next hdef =>
        injection h with h'
        rw [← h'] at hq
        injection hq with hq'
        subst hq'
        exact ⟨hnil, hdig, by simpa using hdef⟩
  next => exact absurd h (by simp)

theorem parseAuthority_inv (schemeL auth : List Char) (u : URLRec)
    (h : parseAuthority schemeL auth = some u) :
    u.scheme = schemeL ∧
    u.hostname = (auth.takeWhile (· != ':')).map Char.toLower ∧
    u.hostname ≠ [] ∧
    (∀ c ∈ auth.takeWhile (· != ':'), c.isWhitespace = false) ∧
    (∀ pd, u.port = some pd → pd ≠ [] ∧ pd.all Char.isDigit = true ∧
      isDefaultPort schemeL (natOfDigits pd) = false) := by
  rw [parseAuthority] at h
  split at h
  next => exact absurd h (by simp)
  next hne =>
    split at h
    next => exact absurd h (by simp)
    next hws =>
      have hwsl : ∀ c ∈ auth.takeWhile (· != ':'), c.isWhitespace = false := by
        have hall : (auth.takeWhile (· != ':')).all (fun c => !c.isWhitespace) = true := by
          simpa using hws
        intro c hc
        simpa using List.all_eq_true.mp hall c hc
      split at h
      next hdw =>
        injection h with h'
        rw [← h']
        refine ⟨rfl, rfl, ?_, hwsl, ?_⟩
        · simpa [List.map_eq_nil_iff] using hne
        · intro pd hpd
          exact absurd hpd (by simp)
      next x pd hdw =>
        split at h
        next port hp =>
          injection h with h'
          rw [← h']
          refine ⟨rfl, rfl, ?_, hwsl, ?_⟩
          · simpa [List.map_eq_nil_iff] using hne
          · intro q hq
            exact parsePort_inv schemeL pd port hp q hq
        next => exact absurd h (by simp)

theorem parseURL_inv (l : List Char) (u : URLRec) (h : parseURL l = some u) :
    u.hostname ≠ [] ∧
    u.hostname.map Char.toLower = u.hostname ∧
    (∀ c ∈ u.hostname, goodHostChar c = true) ∧
    (∀ pd, u.port = some pd → pd ≠ [] ∧ pd.all Char.isDigit = true ∧
      isDefaultPort u.scheme (natOfDigits pd) = false) := by
  rw [parseURL] at h
  split at h
  next => exact absurd h (by simp)
  next rest hrest =>
    split at h
    next => exact absurd h (by simp)
    next hsne =>
      obtain ⟨hsch, hhost, hne, hws, hport⟩ := parseAuthority_inv _ _ _ h
      refine ⟨hne, ?_, ?_, ?_⟩
      · rw [hhost]
        exact map_toLower_idem _
      · intro c hc
        rw [hhost] at hc
        obtain ⟨c', hc', rfl⟩ := List.mem_map.mp hc
        apply goodHostChar_toLower
        refine goodHostChar_intro _ ?_ ?_ (hws c' hc')
        · simpa using List.mem_takeWhile_imp hc'
        · have hmem : c' ∈ rest.takeWhile (fun c => !isSepChar c) :=
            mem_of_mem_takeWhile _ _ _ hc'
          simpa using List.mem_takeWhile_imp hmem
      · intro pd hpd
        rw [hsch]
        exact hport pd hpd

/-- Parsing the printed origin of a parsed http(s) URL returns the same
parsed URL: the key fact behind idempotence of the normalizer. -/
theorem parseURL_originChars (u : URLRec)
    (hs : u.scheme = "https".data ∨ u.scheme = "http".data)
    (hh1 : u.hostname ≠ [])
    (hh2 : u.hostname.map Char.toLower = u.hostname)
    (hh3 : ∀ c ∈ u.hostname, goodHostChar c = true)
    (hp : ∀ pd, u.port = some pd → pd ≠ [] ∧ pd.all Char.isDigit = true ∧
      isDefaultPort u.scheme (natOfDigits pd) = false) :
    parseURL (originChars u) = some u := by
  obtain ⟨sch, hostn, port⟩ := u
  simp only at hs hh1 hh2 hh3 hp
  have hschcolon : ∀ c ∈ sch, (c != ':') = true := by
    rcases hs with hs | hs <;> (subst hs; decide)
  have hschlower : sch.map Char.toLower = sch := by
    rcases hs with hs | hs <;> (subst hs; decide)
  have hschne : sch ≠ [] := by
    rcases hs with hs | hs <;> (subst hs; decide)
  have hhostgood := fun c hc => goodHostChar_split c (hh3 c hc)
  have hhostws : ¬((!hostn.all fun c => !c.isWhitespace) = true) := by
    have hall : (hostn.all fun c => !c.isWhitespace) = true :=
      List.all_eq_true.mpr (fun c hc => by simp [(hhostgood c hc).2.2])
    simp [hall]
  cases port with
  | none =>
    have horig : originChars ⟨sch, hostn, none⟩ =
        sch ++ ':' :: '/' :: '/' :: hostn := by
      simp [originChars]
    have hnosep : ∀ c ∈ hostn, (!isSepChar c) = true := by
      intro c hc
      simp [(hhostgood c hc).2.1]
    rw [parseURL, horig,
      dropWhile_append_stop _ _ _ _ hschcolon (by decide),
      takeWhile_append_stop _ _ _ _ hschcolon (by decide),
      show afterScheme (':' :: '/' :: '/' :: hostn) = some hostn from rfl]
    dsimp only
    rw [if_neg hschne, hschlower,
      takeWhile_all_true _ _ hnosep,
      parseAuthority,
      takeWhile_all_true _ _ (fun c hc => (hhostgood c hc).1),
      if_neg hh1, if_neg hhostws,
      dropWhile_all_true _ _ (fun c hc => (hhostgood c hc).1),
      hh2]
  | some pd =>
    obtain ⟨hpd1, hpd2, hpd3⟩ := hp pd rfl
    have hpddig : ∀ c ∈ pd, c.isDigit = true := fun c hc =>
      List.all_eq_true.mp hpd2 c hc
    have horig : originChars ⟨sch, hostn, some pd⟩ =
        sch ++ ':' :: '/' :: '/' :: (hostn ++ ':' :: pd) := by
      simp [originChars]
    have hnosep : ∀ c ∈ hostn ++ ':' :: pd, (!isSepChar c) = true := by
      intro c hc
      rcases List.mem_append.mp hc with hc | hc
      · simp [(hhostgood c hc).2.1]
      · rcases List.mem_cons.mp hc with rfl | hc
        · decide
        · simp [(isDigit_good c (hpddig c hc)).2.1]
    rw [parseURL, horig,
      dropWhile_append_stop _ _ _ _ hschcolon (by decide),
      takeWhile_append_stop _ _ _ _ hschcolon (by decide),
      show afterScheme (':' :: '/' :: '/' :: (hostn ++ ':' :: pd)) =
        some (hostn ++ ':' :: pd) from rfl]
    dsimp only
    rw [if_neg hschne, hschlower,
      takeWhile_all_true _ _ hnosep,
      parseAuthority,
      takeWhile_append_stop _ _ _ _
        (fun c hc => (hhostgood c hc).1) (by decide),
      if_neg hh1, if_neg hhostws,
      dropWhile_append_stop _ _ _ _
        (fun c hc => (hhostgood c hc).1) (by decide),
      hh2]
    simp only [parsePort, hpd2, if_pos rfl, if_neg hpd1, hpd3]
    rfl

theorem goodHostChar_ne_slash (c : Char) (h : goodHostChar c = true) :
    (c == '/') = false := by
  obtain ⟨_, hsep, _⟩ := goodHostChar_split c h
  simp only [beq_eq_false_iff_ne]
  intro he
  rw [he] at hsep
  exact absurd hsep (by decide)

theorem originChars_no_ws (u : URLRec)
    (hs : u.scheme = "https".data ∨ u.scheme = "http".data)
    (hh3 : ∀ c ∈ u.hostname, goodHostChar c = true)
    (hp : ∀ pd, u.port = some pd → pd.all Char.isDigit = true) :
    ∀ c ∈ originChars u, c.isWhitespace = false := by
  intro c hc
  rw [originChars] at hc
  rcases List.mem_append.mp hc with hc1 | htail
  · rcases List.mem_append.mp hc1 with hsch | hc2
    · rcases hs with hs' | hs'
      · rw [hs'] at hsch
        have hws : ∀ x ∈ ("https".data : List Char), x.isWhitespace = false := by
          decide
        exact hws c hsch
      · rw [hs'] at hsch
        have hws : ∀ x ∈ ("http".data : List Char), x.isWhitespace = false := by
          decide
        exact hws c hsch
    · rcases List.mem_cons.mp hc2 with rfl | hc2
      · decide
      rcases List.mem_cons.mp hc2 with rfl | hc2
      · decide
      rcases List.mem_cons.mp hc2 with rfl | hc2
      · decide
      exact (goodHostChar_split c (hh3 c hc2)).2.2
  · cases hu : u.port with
    | none => rw [hu] at htail; simp at htail
    | some pd =>
      rw [hu] at htail
      simp only at htail
      rcases List.mem_cons.mp htail with rfl | hd
      · decide
      · exact (isDigit_good c (List.all_eq_true.mp (hp pd hu) c hd)).2.2.1

theorem stripTrailingSlashes_originChars (u : URLRec)
    (hh1 : u.hostname ≠ [])
    (hh3 : ∀ c ∈ u.hostname, goodHostChar c = true)
    (hp : ∀ pd, u.port = some pd → pd ≠ [] ∧ pd.all Char.isDigit = true) :
    stripTrailingSlashes (originChars u) = originChars u := by
  obtain ⟨sch, hostn, port⟩ := u
  simp only at hh1 hh3 hp
  cases port with
  | none =>
    obtain ⟨init, a, hinit⟩ := (List.eq_nil_or_concat' hostn).resolve_left hh1
    have ha : a ∈ hostn := by rw [hinit]; simp
    refine dropTrailing_eq_self_of_last _ _
      (sch ++ ':' :: '/' :: '/' :: init) a ?_
      (goodHostChar_ne_slash a (hh3 a ha))
    rw [originChars]
    simp only [hinit]
    simp
  | some pd =>
    obtain ⟨hpd1, hpd2⟩ := hp pd rfl
    obtain ⟨init, d, hinit⟩ := (List.eq_nil_or_concat' pd).resolve_left hpd1
    have hd : d ∈ pd := by rw [hinit]; simp
    refine dropTrailing_eq_self_of_last _ _
      (sch ++ ':' :: '/' :: '/' :: hostn ++ ':' :: init) d ?_
      (isDigit_good d (List.all_eq_true.mp hpd2 d hd)).2.2.2
    rw [originChars]
    simp only [hinit]
    simp

theorem originChars_ne_nil (u : URLRec)
    (hs : u.scheme = "https".data ∨ u.scheme = "http".data) :
    originChars u ≠ [] := by
  obtain ⟨sch, hostn, port⟩ := u
  simp only at hs
  rcases hs with hs | hs <;> (subst hs; simp [originChars])

/-! ### Error values -/

/-- A thrown JS value: either a `SeafileError` with its code, or a plain
`Error`/platform exception with a message. -/
inductive JSError where
  | seafile (code : String) (msg : String)
  | js (msg : String)
deriving DecidableEq, Repr

/-- `validateServerUrl` from `background.js`: trim, strip trailing slashes,
parse as URL, require an http(s) scheme, and return the parsed origin. -/
def validateServerUrl (url : String) : Except JSError String :=
  if url.data = [] then .error (.seafile "INVALID_URL" "errorUrlEmpty")
  else
    match parseURL (stripTrailingSlashes (trimChars url.data)) with
    | none => .error (.seafile "INVALID_URL" "errorInvalidUrl")
    | some u =>
      if u.scheme = "https".data ∨ u.scheme = "http".data then
        .ok (String.mk (originChars u))
      else .error (.seafile "INVALID_URL" "errorUrlScheme")

/-- `validateHostname` from the loginManager experiment: same normalization
via `Services.io.newURI`, returning `uri.prePath`. -/
def validateHostname (hostname : String) : Except JSError String :=
  if hostname.data = [] then .error (.js "Hostname must be a non-empty string.")
  else
    match parseURL (stripTrailingSlashes (trimChars hostname.data)) with
    | none => .error (.js "Invalid hostname")
    | some u =>
      if u.scheme = "https".data ∨ u.scheme = "http".data then
        .ok (String.mk (originChars u))
      else .error (.js "Only http(s) origins are supported.")

theorem validateServerUrl_ok_inv (url out : String)
    (h : validateServerUrl url = .ok out) :
    ∃ u, parseURL (stripTrailingSlashes (trimChars url.data)) = some u ∧
      (u.scheme = "https".data ∨ u.scheme = "http".data) ∧
      out = String.mk (originChars u) := by
  rw [validateServerUrl] at h
  split at h
  next => exact absurd h (by simp)
  next hne =>
    split at h
    next => exact absurd h (by simp)
    next u hu =>
      split at h
      next hs =>
        injection h with h'
        exact ⟨u, hu, hs, h'.symm⟩
      next => exact absurd h (by simp)

/-- Both validators accept a printed parsed-http(s) origin and return it
unchanged. -/
theorem validators_fix_origin (u : URLRec)
    (hs : u.scheme = "https".data ∨ u.scheme = "http".data)
    (hh1 : u.hostname ≠ [])
    (hh2 : u.hostname.map Char.toLower = u.hostname)
    (hh3 : ∀ c ∈ u.hostname, goodHostChar c = true)
    (hp : ∀ pd, u.port = some pd → pd ≠ [] ∧ pd.all Char.isDigit = true ∧
      isDefaultPort u.scheme (natOfDigits pd) = false) :
    validateServerUrl (String.mk (originChars u)) =
      .ok (String.mk (originChars u)) ∧
    validateHostname (String.mk (originChars u)) =
      .ok (String.mk (originChars u)) := by
  have hdata : (String.mk (originChars u)).data = originChars u := rfl
  have hne := originChars_ne_nil u hs
  have htrim : trimChars (originChars u) = originChars u :=
    trimChars_eq_self _ (originChars_no_ws u hs hh3
      (fun pd hpd => (hp pd hpd).2.1))
  have hstrip : stripTrailingSlashes (originChars u) = originChars u :=
    stripTrailingSlashes_originChars u hh1 hh3
      (fun pd hpd => ⟨(hp pd hpd).1, (hp pd hpd).2.1⟩)
  have hparse := parseURL_originChars u hs hh1 hh2 hh3 hp
  constructor
  · rw [validateServerUrl, hdata, if_neg hne, htrim, hstrip, hparse]
    dsimp only
    rw [if_pos hs]
  · rw [validateHostname, hdata, if_neg hne, htrim, hstrip, hparse]
    dsimp only
    rw [if_pos hs]

/-- C9: origin normalization (`validateServerUrl`) is idempotent on every
accepted input: normalizing the normalizer's output returns it unchanged. -/
theorem C9_validateServerUrl_idem (url out : String)
    (h : validateServerUrl url = .ok out) :
    validateServerUrl out = .ok out := by
  obtain ⟨u, hparse, hs, hout⟩ := validateServerUrl_ok_inv url out h
  obtain ⟨hh1, hh2, hh3, hport⟩ := parseURL_inv _ _ hparse
  subst hout
  exact (validators_fix_origin u hs hh1 hh2 hh3 hport).1

/-- Witness for C9 at the concrete accepted input
`"  https://Cloud.Example.com//  "`. -/
theorem C9_validateServerUrl_idem_witness :
    validateServerUrl "https://cloud.example.com" =
      .ok "https://cloud.example.com" :=
  C9_validateServerUrl_idem "  https://Cloud.Example.com//  "
    "https://cloud.example.com" (by rfl)

/-- An already-normalized origin is a fixed point of `validateHostname` as
well; needed because the session manager passes validated origins to the
loginManager API, which re-validates them. -/
theorem validateHostname_of_validateServerUrl (url out : String)
    (h : validateServerUrl url = .ok out) :
    validateHostname out = .ok out ∧ validateServerUrl out = .ok out := by
  obtain ⟨u, hparse, hs, hout⟩ := validateServerUrl_ok_inv url out h
  obtain ⟨hh1, hh2, hh3, hport⟩ := parseURL_inv _ _ hparse
  subst hout
  exact ⟨(validators_fix_origin u hs hh1 hh2 hh3 hport).2,
    (validators_fix_origin u hs hh1 hh2 hh3 hport).1⟩

/-! ### Credential store (the loginManager experiment API)

The `nsILoginManager` store is modelled as a list of login entries; the
trace records every search/remove/add operation actually issued to the
store, so "fails before touching the vault" is "the trace is empty". -/

/-- The three realm tags (`REALMS` in `background.js`, `ALLOWED_REALMS` in
the experiment). -/
def REALM_PASSWORD : String := "Seafile FileLink"

def REALM_TOKEN : String := "Seafile FileLink Token"

def REALM_SHARE_PW : String := "Seafile FileLink SharePW"

def ALLOWED_REALMS : List String :=
  [REALM_PASSWORD, REALM_TOKEN, REALM_SHARE_PW]

structure LoginEntry where
  origin : String
  httpRealm : String
  username : String
  password : String
deriving DecidableEq, Repr

abbrev Vault := List LoginEntry

/-- An operation issued to the underlying credential store. -/
inductive VaultOp where
  | search (origin realm : String)
  | removeLogin (e : LoginEntry)
  | addLogin (e : LoginEntry)
deriving DecidableEq, Repr

/-- `validateRealm` from the experiment: empty or unknown realms are
rejected. -/
def validateRealm (realm : String) : Except JSError String :=
  if realm.data = [] then .error (.js "Realm must be a non-empty string.")
  else if ALLOWED_REALMS.contains realm then .ok realm
  else .error (.js "Realm is not allowed.")

/-- `findLoginsForRealm`: logins matching the given origin and realm. -/
def findLoginsForRealm (vault : Vault) (origin realm : String) :
    List LoginEntry :=
  vault.filter (fun e => e.origin == origin && e.httpRealm == realm)

structure Cred where
  username : String
  password : String
deriving DecidableEq, Repr

/-- `loginManager.saveCredentials`: validate, remove existing entries with
the same origin/realm/username, then add the new login.  (The JS null/type
check on `password` cannot fail for a `String`-typed argument.) -/
def lmSaveCredentials (vault : Vault)
    (hostname realm username password : String) :
    Except JSError Vault × List VaultOp :=
  match validateHostname hostname with
  | .error e => (.error e, [])
  | .ok origin =>
    match validateRealm realm with
    | .error e => (.error e, [])
    | .ok safeRealm =>
      if username.data = [] then
        (.error (.js "Username must be a non-empty string."), [])
      else
        (.ok ((vault.filter (fun e => !(e.origin == origin &&
            e.httpRealm == safeRealm && e.username == username))) ++
          [⟨origin, safeRealm, username, password⟩]),
         VaultOp.search origin safeRealm ::
           ((findLoginsForRealm vault origin safeRealm).filter
             (fun e => e.username == username)).map VaultOp.removeLogin ++
           [VaultOp.addLogin ⟨origin, safeRealm, username, password⟩])

/-- `loginManager.getCredentials`: validate, then the first matching login
(or null). -/
def lmGetCredentials (vault : Vault) (hostname realm : String) :
    Except JSError (Option Cred) × List VaultOp :=
  match validateHostname hostname with
  | .error e => (.error e, [])
  | .ok origin =>
    match validateRealm realm with
    | .error e => (.error e, [])
    | .ok safeRealm =>
      match findLoginsForRealm vault origin safeRealm with
      | [] => (.ok none, [VaultOp.search origin safeRealm])
      | e :: _ => (.ok (some ⟨e.username, e.password⟩),
          [VaultOp.search origin safeRealm])

/-- `loginManager.removeCredentials`: validate, then remove every matching
login. -/
def lmRemoveCredentials (vault : Vault) (hostname realm : String) :
    Except JSError Vault × List VaultOp :=
  match validateHostname hostname with
  | .error e => (.error e, [])
  | .ok origin =>
    match validateRealm realm with
    | .error e => (.error e, [])
    | .ok safeRealm =>
      (.ok (vault.filter (fun e =>
          !(e.origin == origin && e.httpRealm == safeRealm))),
       VaultOp.search origin safeRealm ::
         (findLoginsForRealm vault origin safeRealm).map VaultOp.removeLogin)

/-- `loginManager.removeAllForHost`: remove the entries of all three
allowed realms for the origin. -/
def lmRemoveAllForHost (vault : Vault) (hostname : String) :
    Except JSError Vault :=
  match validateHostname hostname with
  | .error e => .error e
  | .ok origin =>
    .ok (vault.filter (fun e =>
      !(e.origin == origin && ALLOWED_REALMS.contains e.httpRealm)))

theorem validateRealm_invalid (realm : String)
    (h : ALLOWED_REALMS.contains realm = false) :
    ∃ m, validateRealm realm = .error (.js m) := by
  rw [validateRealm]
  split
  next => exact ⟨_, rfl⟩
  next =>
    rw [if_neg (by intro hc; rw [h] at hc; exact absurd hc (by decide))]
    exact ⟨_, rfl⟩

theorem validateHostname_error_js (hostname : String) (e : JSError)
    (h : validateHostname hostname = .error e) : ∃ m, e = .js m := by
  rw [validateHostname] at h
  split at h
  next =>
    injection h with h'
    exact ⟨_, h'.symm⟩
  next =>
    split at h
    next =>
      injection h with h'
      exact ⟨_, h'.symm⟩
    next =>
      split at h
      next => exact absurd h (by simp)
      next =>
        injection h with h'
        exact ⟨_, h'.symm⟩

/-- C7: for every realm outside the fixed set of three tags, each vault
operation taking a realm fails with a validation error, and no read or
write of the underlying credential store occurs (empty operation trace). -/
theorem C7_invalid_realm_rejected (vault : Vault)
    (hostname realm username password : String)
    (h : ALLOWED_REALMS.contains realm = false) :
    ((∃ m, (lmSaveCredentials vault hostname realm username password).1 =
        .error (.js m)) ∧
      (lmSaveCredentials vault hostname realm username password).2 = []) ∧
    ((∃ m, (lmGetCredentials vault hostname realm).1 = .error (.js m)) ∧
      (lmGetCredentials vault hostname realm).2 = []) ∧
    ((∃ m, (lmRemoveCredentials vault hostname realm).1 = .error (.js m)) ∧
      (lmRemoveCredentials vault hostname realm).2 = []) := by
  obtain ⟨mr, hmr⟩ := validateRealm_invalid realm h
  refine ⟨?_, ?_, ?_⟩
  · rw [lmSaveCredentials]
    cases hv : validateHostname hostname with
    | error e =>
      obtain ⟨m, hm⟩ := validateHostname_error_js hostname e hv
      exact ⟨⟨m, by rw [hm]⟩, rfl⟩
    | ok origin => rw [hmr]; exact ⟨⟨mr, rfl⟩, rfl⟩
  · rw [lmGetCredentials]
    cases hv : validateHostname hostname with
    | error e =>
      obtain ⟨m, hm⟩ := validateHostname_error_js hostname e hv
      exact ⟨⟨m, by rw [hm]⟩, rfl⟩
    | ok origin => rw [hmr]; exact ⟨⟨mr, rfl⟩, rfl⟩
  · rw [lmRemoveCredentials]
    cases hv : validateHostname hostname with
    | error e =>
      obtain ⟨m, hm⟩ := validateHostname_error_js hostname e hv
      exact ⟨⟨m, by rw [hm]⟩, rfl⟩
    | ok origin => rw [hmr]; exact ⟨⟨mr, rfl⟩, rfl⟩

/-- Witness for C7 at the unknown realm `"bogus-realm"`. -/
theorem C7_invalid_realm_rejected_witness :
    ((∃ m, (lmSaveCredentials [] "https://example.com" "bogus-realm"
        "alice" "pw").1 = .error (.js m)) ∧
      (lmSaveCredentials [] "https://example.com" "bogus-realm"
        "alice" "pw").2 = []) ∧
    ((∃ m, (lmGetCredentials [] "https://example.com" "bogus-realm").1 =
        .error (.js m)) ∧
      (lmGetCredentials [] "https://example.com" "bogus-realm").2 = []) ∧
    ((∃ m, (lmRemoveCredentials [] "https://example.com" "bogus-realm").1 =
        .error (.js m)) ∧
      (lmRemoveCredentials [] "https://example.com" "bogus-realm").2 = []) :=
  C7_invalid_realm_rejected [] "https://example.com" "bogus-realm"
    "alice" "pw" (by decide)

theorem contains_true_ne_empty (realm : String)
    (h : ALLOWED_REALMS.contains realm = true) : realm.data ≠ [] := by
  intro he
  have hr : realm = "" := by
    cases realm with
    | mk d =>
      have hd : d = [] := by simpa using he
      rw [hd]
  rw [hr] at h
  exact absurd h (by decide)

theorem validateRealm_valid (realm : String)
    (h : ALLOWED_REALMS.contains realm = true) :
    validateRealm realm = .ok realm := by
  rw [validateRealm, if_neg (contains_true_ne_empty realm h), if_pos h]

/-- C10: `saveCredentials` removes every pre-existing vault entry with the
same (origin, realm, username) before adding the new one, so afterwards the
vault holds exactly one entry for the triple, with the new secret. -/
theorem C10_saveCredentials_overwrites (vault : Vault)
    (hostname realm username password origin : String)
    (hh : validateHostname hostname = .ok origin)
    (hr : ALLOWED_REALMS.contains realm = true)
    (hu : username.data ≠ []) :
    ∃ v', (lmSaveCredentials vault hostname realm username password).1 =
        .ok v' ∧
      v'.filter (fun e => e.origin == origin && e.httpRealm == realm &&
        e.username == username) = [⟨origin, realm, username, password⟩] := by
  rw [lmSaveCredentials, hh, validateRealm_valid realm hr]
  dsimp only
  rw [if_neg hu]
  refine ⟨_, rfl, ?_⟩
  rw [List.filter_append]
  have h1 : (vault.filter (fun e => !(e.origin == origin &&
      e.httpRealm == realm && e.username == username))).filter
      (fun e => e.origin == origin && e.httpRealm == realm &&
        e.username == username) = [] := by
    rw [List.filter_eq_nil_iff]
    intro a ha
    have h2 := (List.mem_filter.mp ha).2
    simp only [Bool.not_eq_true'] at h2
    simp [h2]
  rw [h1, List.nil_append]
  simp

/-- Witness for C10: saving over an existing entry for the same triple. -/
theorem C10_saveCredentials_overwrites_witness :
    ∃ v', (lmSaveCredentials
        [⟨"https://example.com", "Seafile FileLink", "alice", "old"⟩]
        "https://example.com" "Seafile FileLink" "alice" "new").1 =
        .ok v' ∧
      v'.filter (fun e => e.origin == "https://example.com" &&
        e.httpRealm == "Seafile FileLink" && e.username == "alice") =
        [⟨"https://example.com", "Seafile FileLink", "alice", "new"⟩] :=
  C10_saveCredentials_overwrites
    [⟨"https://example.com", "Seafile FileLink", "alice", "old"⟩]
    "https://example.com" "Seafile FileLink" "alice" "new"
    "https://example.com" (by rfl) (by decide) (by decide)

/-! ### Network oracle and API client (`SeafileAPI` in `background.js`)

`fetch` is modelled by an oracle giving each endpoint's response;
`.error ()` is a rejected fetch (network failure), `.ok` carries the HTTP
status (and a decoded body where the client reads one). -/

/-- Decoded body of `/api2/auth-token/`. -/
structure AuthResp where
  status : Nat
  nonFieldErrors : List String
  token : String
deriving DecidableEq, Repr

/-- Decoded body of `/api/v2.1/share-links/`. -/
structure ShareResp where
  token : String
  link : String
deriving DecidableEq, Repr

structure NetOracle where
  ping : String → Option String → Except Unit Nat
  auth : String → String → String → Option String → Except Unit AuthResp
  mkdir : String → Option String → String → String → Except Unit Nat
  uploadLinkReq : String → Option String → String → String →
    Except Unit (Nat × String)
  upload : Option String → String → String → String → Except Unit Nat
  share : String → Option String → ShareBody → Except Unit (Nat × ShareResp)
  deleteReq : String → Option String → String → String → Except Unit Nat

/-- `response.ok`: HTTP status in the 2xx range. -/
def statusOk (s : Nat) : Bool := decide (200 ≤ s ∧ s < 300)

/-- A client instance: validated origin plus the current bearer token. -/
structure API where
  serverUrl : String
  token : Option String
deriving DecidableEq, Repr

/-- `new SeafileAPI(serverUrl)`: the constructor validates the URL. -/
def mkSeafileAPI (serverUrl : String) : Except JSError API :=
  match validateServerUrl serverUrl with
  | .error e => .error e
  | .ok origin => .ok ⟨origin, none⟩

/-- `SeafileAPI.ping`: `return response.ok`; a rejected fetch propagates
out of `ping` itself. -/
def apiPing (o : NetOracle) (api : API) : Except Unit Bool :=
  match o.ping api.serverUrl api.token with
  | .error e => .error e
  | .ok s => .ok (statusOk s)

/-- `try { if (await api.ping()) ... } catch { ... }` at the
session-manager call sites: the live branch is taken only for a fulfilled
`true`; a `false` or an exception falls through identically. -/
def probeAlive (r : Except Unit Bool) : Bool :=
  match r with
  | .ok true => true
  | _ => false

/-- `/^\d{6}$/` applied to the OTP token. -/
def isOtpFormat (t : String) : Bool :=
  t.data.length == 6 && t.data.all Char.isDigit

/-- `String.prototype.includes` on character lists. -/
def containsSub (needle : List Char) : List Char → Bool
  | [] => needle.isEmpty
  | a :: rest => needle.isPrefixOf (a :: rest) || containsSub needle rest

/-- The POST of `SeafileAPI.authenticate` and its response handling. -/
def apiAuthPost (o : NetOracle) (api : API) (username password : String)
    (otp : Option String) : Except JSError (String × API) :=
  match o.auth api.serverUrl username password otp with
  | .error _ => .error (.js "NetworkError")
  | .ok resp =>
    if statusOk resp.status then
      .ok (resp.token, { api with token := some resp.token })
    else if resp.nonFieldErrors.any (fun e =>
        containsSub "Two factor auth token is missing".data e.data) then
      .error (.seafile "2FA_REQUIRED" "error2faRequired")
    else if resp.nonFieldErrors.any (fun e =>
        containsSub "Two factor auth token".data e.data) then
      .error (.seafile "2FA_INVALID" "error2faInvalid")
    else .error (.seafile "AUTH_FAILED" "errorAuthFailed")

/-- `SeafileAPI.authenticate`: a truthy but malformed OTP is rejected
before any network call; a falsy one (absent or empty) sends no OTP
header. -/
def apiAuthenticate (o : NetOracle) (api : API) (username password : String)
    (otpToken : Option String) : Except JSError (String × API) :=
  match otpToken with
  | some t =>
    if t.data = [] then apiAuthPost o api username password none
    else if isOtpFormat t then apiAuthPost o api username password (some t)
    else .error (.seafile "2FA_INVALID" "error2faInvalid")
  | none => apiAuthPost o api username password none

/-- `SeafileAPI.ensureDirectory`: 409 and 400 are treated as success. -/
def apiEnsureDirectory (o : NetOracle) (api : API) (repoId path : String) :
    Except JSError Unit :=
  match o.mkdir api.serverUrl api.token repoId (sanitizePath path) with
  | .error _ => .error (.js "NetworkError")
  | .ok s =>
    if !statusOk s && s != 409 && s != 400 then
      .error (.seafile "MKDIR_FAILED" "errorCreateDir")
    else .ok ()

/-- `SeafileAPI.getUploadLink`: the returned URL must parse and its
hostname must equal the session origin's hostname. -/
def apiGetUploadLink (o : NetOracle) (api : API) (repoId parentDir : String) :
    Except JSError String :=
  match o.uploadLinkReq api.serverUrl api.token repoId
      (sanitizePath parentDir) with
  | .error _ => .error (.js "NetworkError")
  | .ok (s, linkStr) =>
    if !statusOk s then .error (.seafile "UPLOAD_LINK_FAILED" "errorUploadLink")
    else
      match parseURL linkStr.data, parseURL api.serverUrl.data with
      | some u, some sv =>
        if u.hostname ≠ sv.hostname then
          .error (.seafile "UPLOAD_LINK_UNTRUSTED" "errorUploadLinkUntrusted")
        else .ok linkStr
      | _, _ => .error (.seafile "UPLOAD_LINK_INVALID" "errorUploadLinkInvalid")

/-- The multipart POST of `SeafileAPI.uploadFile`. -/
def apiUploadFilePost (o : NetOracle) (api : API)
    (uploadLink parentDir fileName : String) : Except JSError Nat :=
  match o.upload api.token uploadLink (sanitizePath parentDir) fileName with
  | .error _ => .error (.js "NetworkError")
  | .ok s =>
    if !statusOk s then .error (.seafile "UPLOAD_FAILED" "errorUpload")
    else .ok s

/-- `SeafileAPI.uploadFile`: `fetch` with an optional abort signal.
`aborted` is the set of fileIds whose abort event has fired; a signal tied
to an aborted id makes the fetch reject with `AbortError`; with no signal
the abort state is invisible to the request. -/
def apiUploadFile (o : NetOracle) (aborted : List String) (api : API)
    (uploadLink parentDir fileName : String) (abortSignal : Option String) :
    Except JSError Nat :=
  match abortSignal with
  | some sig =>
    if aborted.contains sig then .error (.js "AbortError")
    else apiUploadFilePost o api uploadLink parentDir fileName
  | none => apiUploadFilePost o api uploadLink parentDir fileName

/-- `SeafileAPI.createShareLink`: transmits `shareLinkBody`; failures give
only the generic share-link error. -/
def apiCreateShareLink (o : NetOracle) (api : API) (repoId path : String)
    (password : Option String) (expireDays : Option Int) :
    Except JSError ShareResp :=
  match o.share api.serverUrl api.token
      (shareLinkBody repoId path password expireDays) with
  | .error _ => .error (.js "NetworkError")
  | .ok (s, resp) =>
    if !statusOk s then .error (.seafile "SHARE_LINK_FAILED" "errorShareLink")
    else .ok resp

/-- `SeafileAPI.deleteFile`: returns `response.ok`. -/
def apiDeleteFile (o : NetOracle) (api : API) (repoId path : String) :
    Except JSError Bool :=
  match o.deleteReq api.serverUrl api.token repoId (sanitizePath path) with
  | .error _ => .error (.js "NetworkError")
  | .ok s => .ok (statusOk s)

/-! ### Background state and session manager (`getAuthenticatedAPI`) -/

/-- The non-secret per-account configuration (`storageConfig`). -/
structure AccountConfig where
  serverUrl : String
  username : String
  repoId : String
  repoName : String
  uploadDir : String
  shareLinkExpireDays : Int
  hasShareLinkPassword : Bool
deriving DecidableEq, Repr

/-- An entry of the `uploadedFiles` tracking table. -/
structure UploadRecord where
  repoId : String
  filePath : String
  accountId : String
  shareLinkToken : String
deriving DecidableEq, Repr

/-- The mutable background state: `storage.local` account configs, the
password-manager vault, the in-memory `apiCache`, and the in-memory
`uploadedFiles` tracking table. -/
structure BgState where
  configs : List (String × AccountConfig)
  vault : Vault
  apiCache : List (String × API)
  uploadedFiles : List (String × UploadRecord)
deriving DecidableEq, Repr

def lookup {α : Type} (l : List (String × α)) (k : String) : Option α :=
  match l.find? (fun p => p.1 == k) with
  | none => none
  | some p => some p.2

def setKey {α : Type} (l : List (String × α)) (k : String) (v : α) :
    List (String × α) :=
  (l.filter (fun p => p.1 != k)) ++ [(k, v)]

def removeKey {α : Type} (l : List (String × α)) (k : String) :
    List (String × α) :=
  l.filter (fun p => p.1 != k)

theorem find_after_filter {α : Type} (l : List (String × α)) (k : String)
    (v : α) :
    ((l.filter (fun p => p.1 != k)) ++ [(k, v)]).find?
      (fun p => p.1 == k) = some (k, v) := by
  induction l with
  | nil => simp [List.find?]
  | cons hd tl ih =>
    rw [List.filter_cons]
    by_cases hk : (hd.1 != k) = true
    · rw [if_pos hk, List.cons_append,
        List.find?_cons_of_neg _ (by simpa using hk)]
      exact ih
    · rw [if_neg hk]
      exact ih

theorem lookup_setKey {α : Type} (l : List (String × α)) (k : String)
    (v : α) : lookup (setKey l k v) k = some v := by
  rw [lookup, setKey, find_after_filter]

/-- `getSecret` from `background.js`: `result ? result.password : null`. -/
def getSecret (vault : Vault) (serverUrl realm : String) :
    Except JSError (Option String) :=
  match (lmGetCredentials vault serverUrl realm).1 with
  | .error e => .error e
  | .ok none => .ok none
  | .ok (some c) => .ok (some c.password)

/-- `saveSecret` from `background.js`: empty values are skipped, others
stored via `loginManager.saveCredentials`. -/
def saveSecret (vault : Vault) (serverUrl realm key value : String) :
    Except JSError Vault :=
  if value.data = [] then .ok vault
  else
    match (lmSaveCredentials vault serverUrl realm key value).1 with
    | .error e => .error e
    | .ok v' => .ok v'

/-- Result of `getAuthenticatedAPI`: outcome, state after the call, and
trace counters (authentication calls, liveness probes). -/
structure GAAOut where
  res : Except JSError API
  st : BgState
  authCalls : Nat
  pings : Nat
deriving Repr

/-- Tier 3 of `getAuthenticatedAPI`: re-authenticate with the stored
password, persist the fresh token to the token realm, cache the session. -/
def gaaTier3 (o : NetOracle) (st : BgState) (accountId serverUrl : String)
    (pings : Nat) : GAAOut :=
  match (lmGetCredentials st.vault serverUrl REALM_PASSWORD).1 with
  | .error e => ⟨.error e, st, 0, pings⟩
  | .ok none =>
    ⟨.error (.seafile "NO_CREDENTIALS" "errorNoCredentials"), st, 0, pings⟩
  | .ok (some cred) =>
    match mkSeafileAPI serverUrl with
    | .error e => ⟨.error e, st, 0, pings⟩
    | .ok api0 =>
      match apiAuthenticate o api0 cred.username cred.password none with
      | .error e => ⟨.error e, st, 1, pings⟩
      | .ok (tok, api) =>
        match saveSecret st.vault serverUrl REALM_TOKEN cred.username tok with
        | .error e => ⟨.error e, st, 1, pings⟩
        | .ok vault' =>
          ⟨.ok api,
           ⟨st.configs, vault', setKey st.apiCache accountId api,
             st.uploadedFiles⟩, 1, pings⟩

/-- Tier 2 of `getAuthenticatedAPI`: a stored (truthy) token-realm secret
seeds a session that is probed and, if alive, cached and returned. -/
def gaaTier2 (o : NetOracle) (st : BgState) (accountId serverUrl : String)
    (pings : Nat) : GAAOut :=
  match getSecret st.vault serverUrl REALM_TOKEN with
  | .error e => ⟨.error e, st, 0, pings⟩
  | .ok none => gaaTier3 o st accountId serverUrl pings
  | .ok (some t) =>
    if t.data = [] then gaaTier3 o st accountId serverUrl pings
    else
      match mkSeafileAPI serverUrl with
      | .error e => ⟨.error e, st, 0, pings⟩
      | .ok api0 =>
        if probeAlive (apiPing o ⟨api0.serverUrl, some t⟩) then
          ⟨.ok ⟨api0.serverUrl, some t⟩,
           { st with apiCache :=
               setKey st.apiCache accountId ⟨api0.serverUrl, some t⟩ },
           0, pings + 1⟩
        else gaaTier3 o st accountId serverUrl (pings + 1)

/-- `getAuthenticatedAPI`: config lookup, then the cached-session tier
(with eviction on a failed probe), then tiers 2 and 3. -/
def getAuthenticatedAPI (o : NetOracle) (st : BgState) (accountId : String) :
    GAAOut :=
  match lookup st.configs accountId with
  | none => ⟨.error (.seafile "NO_CONFIG" "errorNoConfig"), st, 0, 0⟩
  | some config =>
    if config.serverUrl.data = [] then
      ⟨.error (.seafile "NO_CONFIG" "errorNoConfig"), st, 0, 0⟩
    else
      match validateServerUrl config.serverUrl with
      | .error e => ⟨.error e, st, 0, 0⟩
      | .ok serverUrl =>
        match lookup st.apiCache accountId with
        | some api =>
          if probeAlive (apiPing o api) then ⟨.ok api, st, 0, 1⟩
          else
            gaaTier2 o
              ({ st with apiCache := removeKey st.apiCache accountId })
              accountId serverUrl 1
        | none => gaaTier2 o st accountId serverUrl 0

theorem validateServerUrl_ok_ne_empty (url out : String)
    (h : validateServerUrl url = .ok out) : url.data ≠ [] := by
  intro he
  rw [validateServerUrl, if_pos he] at h
  exact absurd h (by simp)

theorem gaa_eval (o : NetOracle) (st : BgState)
    (accountId : String) (config : AccountConfig) (serverUrl : String)
    (hc : lookup st.configs accountId = some config)
    (hv : validateServerUrl config.serverUrl = .ok serverUrl) :
    getAuthenticatedAPI o st accountId =
      match lookup st.apiCache accountId with
      | some api =>
        if probeAlive (apiPing o api) then ⟨.ok api, st, 0, 1⟩
        else
          gaaTier2 o
            ({ st with apiCache := removeKey st.apiCache accountId })
            accountId serverUrl 1
      | none => gaaTier2 o st accountId serverUrl 0 := by
  rw [getAuthenticatedAPI, hc]
  dsimp only
  rw [if_neg (validateServerUrl_ok_ne_empty _ _ hv), hv]

theorem gaaTier2_hit (o : NetOracle) (st : BgState)
    (accountId serverUrl t : String) (pings : Nat)
    (hv2 : validateServerUrl serverUrl = .ok serverUrl)
    (hsec : getSecret st.vault serverUrl REALM_TOKEN = .ok (some t))
    (htne : t.data ≠ [])
    (halive : probeAlive (apiPing o ⟨serverUrl, some t⟩) = true) :
    gaaTier2 o st accountId serverUrl pings =
      ⟨.ok ⟨serverUrl, some t⟩,
       { st with apiCache := setKey st.apiCache accountId ⟨serverUrl, some t⟩ },
       0, pings + 1⟩ := by
  rw [gaaTier2, hsec]
  dsimp only
  rw [if_neg htne, mkSeafileAPI, hv2]
  dsimp only
  rw [if_pos halive]

theorem gaaTier2_miss (o : NetOracle) (st : BgState)
    (accountId serverUrl : String) (pings : Nat)
    (hv2 : validateServerUrl serverUrl = .ok serverUrl)
    (hmiss : getSecret st.vault serverUrl REALM_TOKEN = .ok none ∨
      ∃ t, getSecret st.vault serverUrl REALM_TOKEN = .ok (some t) ∧
        (t.data = [] ∨ probeAlive (apiPing o ⟨serverUrl, some t⟩) = false)) :
    ∃ pings', gaaTier2 o st accountId serverUrl pings =
      gaaTier3 o st accountId serverUrl pings' := by
  rcases hmiss with hnone | ⟨t, hsome, hbad⟩
  · exact ⟨pings, by rw [gaaTier2, hnone]⟩
  · by_cases hemp : t.data = []
    · refine ⟨pings, ?_⟩
      rw [gaaTier2, hsome]
      dsimp only
      rw [if_pos hemp]
    · rcases hbad with hemp' | hdead
      · exact absurd hemp' hemp
      · refine ⟨pings + 1, ?_⟩
        rw [gaaTier2, hsome]
        dsimp only
        rw [if_neg hemp, mkSeafileAPI, hv2]
        dsimp only
        rw [if_neg (by rw [hdead]; exact Bool.false_ne_true)]

theorem gaaTier3_noCreds (o : NetOracle) (st : BgState)
    (accountId serverUrl : String) (pings : Nat)
    (h : (lmGetCredentials st.vault serverUrl REALM_PASSWORD).1 = .ok none) :
    gaaTier3 o st accountId serverUrl pings =
      ⟨.error (.seafile "NO_CREDENTIALS" "errorNoCredentials"), st, 0, pings⟩
    := by
  rw [gaaTier3, h]

theorem gaaTier3_auth (o : NetOracle) (st : BgState)
    (accountId serverUrl u p : String) (resp : AuthResp) (pings : Nat)
    (hv2 : validateServerUrl serverUrl = .ok serverUrl)
    (hh2 : validateHostname serverUrl = .ok serverUrl)
    (hcred : (lmGetCredentials st.vault serverUrl REALM_PASSWORD).1 =
      .ok (some ⟨u, p⟩))
    (hu : u.data ≠ [])
    (hauth : o.auth serverUrl u p none = .ok resp)
    (hst : statusOk resp.status = true)
    (htk : resp.token.data ≠ []) :
    gaaTier3 o st accountId serverUrl pings =
      ⟨.ok ⟨serverUrl, some resp.token⟩,
       ⟨st.configs,
        (st.vault.filter (fun e => !(e.origin == serverUrl &&
          e.httpRealm == REALM_TOKEN && e.username == u))) ++
          [⟨serverUrl, REALM_TOKEN, u, resp.token⟩],
        setKey st.apiCache accountId ⟨serverUrl, some resp.token⟩,
        st.uploadedFiles⟩, 1, pings⟩ := by
  rw [gaaTier3, hcred]
  dsimp only
  rw [mkSeafileAPI, hv2]
  dsimp only
  rw [apiAuthenticate]
  rw [apiAuthPost, hauth]
  dsimp only
  rw [if_pos hst]
  dsimp only
  rw [saveSecret, if_neg htk, lmSaveCredentials, hh2,
    validateRealm_valid REALM_TOKEN (by decide)]
  dsimp only
  rw [if_neg hu]

/-- C1: session acquisition follows the three-tier strategy in order: a
live cached session is returned as-is; otherwise a live stored token-realm
secret seeds a session that is cached and returned; otherwise exactly one
authenticate call occurs, its token is persisted to the token realm and
the session cached — failing with NoCredentials when the password-realm
secret is absent, and with NoConfig before any tier when no AccountConfig
exists. -/
theorem C1_three_tier_acquisition (o : NetOracle) (st : BgState)
    (accountId : String) :
    (lookup st.configs accountId = none →
      getAuthenticatedAPI o st accountId =
        ⟨.error (.seafile "NO_CONFIG" "errorNoConfig"), st, 0, 0⟩) ∧
    (∀ config serverUrl api,
      lookup st.configs accountId = some config →
      validateServerUrl config.serverUrl = .ok serverUrl →
      lookup st.apiCache accountId = some api →
      probeAlive (apiPing o api) = true →
      getAuthenticatedAPI o st accountId = ⟨.ok api, st, 0, 1⟩) ∧
    (∀ config serverUrl t,
      lookup st.configs accountId = some config →
      validateServerUrl config.serverUrl = .ok serverUrl →
      (lookup st.apiCache accountId = none ∨
        ∃ api, lookup st.apiCache accountId = some api ∧
          probeAlive (apiPing o api) = false) →
      getSecret st.vault serverUrl REALM_TOKEN = .ok (some t) →
      t.data ≠ [] →
      probeAlive (apiPing o ⟨serverUrl, some t⟩) = true →
      (getAuthenticatedAPI o st accountId).res = .ok ⟨serverUrl, some t⟩ ∧
      (getAuthenticatedAPI o st accountId).authCalls = 0 ∧
      lookup (getAuthenticatedAPI o st accountId).st.apiCache accountId =
        some ⟨serverUrl, some t⟩) ∧
    (∀ config serverUrl,
      lookup st.configs accountId = some config →
      validateServerUrl config.serverUrl = .ok serverUrl →
      (lookup st.apiCache accountId = none ∨
        ∃ api, lookup st.apiCache accountId = some api ∧
          probeAlive (apiPing o api) = false) →
      (getSecret st.vault serverUrl REALM_TOKEN = .ok none ∨
        ∃ t, getSecret st.vault serverUrl REALM_TOKEN = .ok (some t) ∧
          (t.data = [] ∨
            probeAlive (apiPing o ⟨serverUrl, some t⟩) = false)) →
      (lmGetCredentials st.vault serverUrl REALM_PASSWORD).1 = .ok none →
      (getAuthenticatedAPI o st accountId).res =
        .error (.seafile "NO_CREDENTIALS" "errorNoCredentials") ∧
      (getAuthenticatedAPI o st accountId).authCalls = 0) ∧
    (∀ config serverUrl u p resp,
      lookup st.configs accountId = some config →
      validateServerUrl config.serverUrl = .ok serverUrl →
      (lookup st.apiCache accountId = none ∨
        ∃ api, lookup st.apiCache accountId = some api ∧
          probeAlive (apiPing o api) = false) →
      (getSecret st.vault serverUrl REALM_TOKEN = .ok none ∨
        ∃ t, getSecret st.vault serverUrl REALM_TOKEN = .ok (some t) ∧
          (t.data = [] ∨
            probeAlive (apiPing o ⟨serverUrl, some t⟩) = false)) →
      (lmGetCredentials st.vault serverUrl REALM_PASSWORD).1 =
        .ok (some ⟨u, p⟩) →
      u.data ≠ [] →
      o.auth serverUrl u p none = .ok resp →
      statusOk resp.status = true →
      resp.token.data ≠ [] →
      (getAuthenticatedAPI o st accountId).res =
        .ok ⟨serverUrl, some resp.token⟩ ∧
      (getAuthenticatedAPI o st accountId).authCalls = 1 ∧
      lookup (getAuthenticatedAPI o st accountId).st.apiCache accountId =
        some ⟨serverUrl, some resp.token⟩ ∧
      (⟨serverUrl, REALM_TOKEN, u, resp.token⟩ : LoginEntry) ∈
        (getAuthenticatedAPI o st accountId).st.vault) := by
  refine ⟨?_, ?_, ?_, ?_, ?_⟩
  · intro h
    rw [getAuthenticatedAPI, h]
  · intro config serverUrl api hc hv hcache halive
    rw [gaa_eval o st accountId config serverUrl hc hv, hcache]
    dsimp only
    rw [if_pos halive]
  · intro config serverUrl t hc hv hcache hsec htne halive
    have hv2 := (validateHostname_of_validateServerUrl _ _ hv).2
    rw [gaa_eval o st accountId config serverUrl hc hv]
    rcases hcache with hnone | ⟨api, hsome, hdead⟩
    · rw [hnone]
      dsimp only
      rw [gaaTier2_hit o st accountId serverUrl t 0 hv2 hsec htne halive]
      exact ⟨rfl, rfl, lookup_setKey _ _ _⟩
    · rw [hsome]
      dsimp only
      rw [if_neg (by rw [hdead]; exact Bool.false_ne_true)]
      rw [gaaTier2_hit o ⟨st.configs, st.vault, removeKey st.apiCache accountId, st.uploadedFiles⟩ accountId serverUrl t 1 hv2 hsec htne halive]
      exact ⟨rfl, rfl, lookup_setKey _ _ _⟩
  · intro config serverUrl hc hv hcache hmiss hnocred
    have hv2 := (validateHostname_of_validateServerUrl _ _ hv).2
    rw [gaa_eval o st accountId config serverUrl hc hv]
    rcases hcache with hnone | ⟨api, hsome, hdead⟩
    · rw [hnone]
      dsimp only
      obtain ⟨pings', hp'⟩ := gaaTier2_miss o st accountId serverUrl 0 hv2 hmiss
      rw [hp', gaaTier3_noCreds o st accountId serverUrl pings' hnocred]
      exact ⟨rfl, rfl⟩
    · rw [hsome]
      dsimp only
      rw [if_neg (by rw [hdead]; exact Bool.false_ne_true)]
      obtain ⟨pings', hp'⟩ :=
        gaaTier2_miss o ⟨st.configs, st.vault, removeKey st.apiCache accountId, st.uploadedFiles⟩ accountId serverUrl 1 hv2 hmiss
      rw [hp', gaaTier3_noCreds o ⟨st.configs, st.vault, removeKey st.apiCache accountId, st.uploadedFiles⟩ accountId serverUrl pings' hnocred]
      exact ⟨rfl, rfl⟩
  · intro config serverUrl u p resp hc hv hcache hmiss hcred hu hauth hst htk
    have hv2 := (validateHostname_of_validateServerUrl _ _ hv).2
    have hh2 := (validateHostname_of_validateServerUrl _ _ hv).1
    rw [gaa_eval o st accountId config serverUrl hc hv]
    rcases hcache with hnone | ⟨api, hsome, hdead⟩
    · rw [hnone]
      dsimp only
      obtain ⟨pings', hp'⟩ := gaaTier2_miss o st accountId serverUrl 0 hv2 hmiss
      rw [hp', gaaTier3_auth o st accountId serverUrl u p resp pings'
        hv2 hh2 hcred hu hauth hst htk]
      exact ⟨rfl, rfl, lookup_setKey _ _ _, by simp⟩
    · rw [hsome]
      dsimp only
      rw [if_neg (by rw [hdead]; exact Bool.false_ne_true)]
      obtain ⟨pings', hp'⟩ :=
        gaaTier2_miss o ⟨st.configs, st.vault, removeKey st.apiCache accountId, st.uploadedFiles⟩ accountId serverUrl 1 hv2 hmiss
      rw [hp', gaaTier3_auth o ⟨st.configs, st.vault, removeKey st.apiCache accountId, st.uploadedFiles⟩ accountId serverUrl u p resp pings'
        hv2 hh2 hcred hu hauth hst htk]
      exact ⟨rfl, rfl, lookup_setKey _ _ _, by simp⟩

/-! ### A concrete witness environment -/

/-- A network where `alice`/`pw1` authenticates to token `tok1`, only
`tok1` probes alive, and every storage operation succeeds; the upload
ticket points at the session's own host. -/
def oWitness : NetOracle where
  ping := fun _ t =>
    match t with
    | some tk => if tk == "tok1" then .ok 200 else .ok 401
    | none => .ok 401
  auth := fun _ u p _ =>
    if u == "alice" && p == "pw1" then .ok ⟨200, [], "tok1"⟩
    else .ok ⟨400, [], ""⟩
  mkdir := fun _ _ _ _ => .ok 201
  uploadLinkReq := fun _ _ _ _ =>
    .ok (200, "https://example.com/seafhttp/upload-api/ticket1")
  upload := fun _ _ _ _ => .ok 200
  share := fun _ _ _ => .ok (200, ⟨"stok1", "https://example.com/f/abc/"⟩)
  deleteReq := fun _ _ _ _ => .ok 200

def cfgWitness : AccountConfig :=
  ⟨"https://example.com", "alice", "lib1", "Library",
    "/Thunderbird-Attachments", 7, false⟩

def stWitness : BgState :=
  ⟨[("acct1", cfgWitness)],
   [⟨"https://example.com", REALM_PASSWORD, "alice", "pw1"⟩],
   [], []⟩

/-- Witness for C1: tier 3 fires at a state with no cached session and no
stored token; the resulting token is persisted and the session cached. -/
theorem C1_three_tier_acquisition_witness :
    (getAuthenticatedAPI oWitness stWitness "acct1").res =
      .ok ⟨"https://example.com", some "tok1"⟩ ∧
    (getAuthenticatedAPI oWitness stWitness "acct1").authCalls = 1 ∧
    lookup (getAuthenticatedAPI oWitness stWitness "acct1").st.apiCache
      "acct1" = some ⟨"https://example.com", some "tok1"⟩ ∧
    (⟨"https://example.com", REALM_TOKEN, "alice", "tok1"⟩ : LoginEntry) ∈
      (getAuthenticatedAPI oWitness stWitness "acct1").st.vault :=
  (C1_three_tier_acquisition oWitness stWitness "acct1").2.2.2.2
    cfgWitness "https://example.com" "alice" "pw1" ⟨200, [], "tok1"⟩
    rfl (by rfl) (Or.inl rfl) (Or.inl (by rfl)) (by rfl) (by decide)
    (by rfl) (by decide) (by decide)

/-! ### Probe-failure handling (C6) -/

/-- Replace every rejected probe by a plain 500 response. -/
def pingNoThrow (o : NetOracle) : NetOracle :=
  { o with ping := fun s t =>
      match o.ping s t with
      | .error _ => .ok 500
      | .ok n => .ok n }

theorem probeAlive_noThrow (o : NetOracle) (api : API) :
    probeAlive (apiPing (pingNoThrow o) api) =
      probeAlive (apiPing o api) := by
  rw [apiPing, apiPing, pingNoThrow]
  dsimp only
  cases o.ping api.serverUrl api.token with
  | error e => rfl
  | ok n => rfl

theorem gaaTier3_noThrow (o : NetOracle) (st : BgState)
    (accountId serverUrl : String) (pings : Nat) :
    gaaTier3 (pingNoThrow o) st accountId serverUrl pings =
      gaaTier3 o st accountId serverUrl pings := rfl

theorem gaaTier2_noThrow (o : NetOracle) (st : BgState)
    (accountId serverUrl : String) (pings : Nat) :
    gaaTier2 (pingNoThrow o) st accountId serverUrl pings =
      gaaTier2 o st accountId serverUrl pings := by
  rw [gaaTier2, gaaTier2]
  cases getSecret st.vault serverUrl REALM_TOKEN with
  | error e => rfl
  | ok sec =>
    cases sec with
    | none => exact gaaTier3_noThrow o st accountId serverUrl pings
    | some t =>
      dsimp only
      split
      next => exact gaaTier3_noThrow o st accountId serverUrl pings
      next =>
        cases mkSeafileAPI serverUrl with
        | error e => rfl
        | ok api0 =>
          dsimp only
          rw [probeAlive_noThrow]
          split
          next => rfl
          next => exact gaaTier3_noThrow o st accountId serverUrl (pings + 1)

/-- C6 (amended): a 401 probe response yields `false` without a rejection,
and at the session-manager level a probe exception is handled exactly like
a failed probe — replacing each rejected probe by a failing response
changes nothing — so probe failures never propagate outward. -/
theorem C6_probe_failure_handling :
    (∀ (o : NetOracle) (api : API),
      o.ping api.serverUrl api.token = .ok 401 →
      apiPing o api = .ok false) ∧
    (∀ (o : NetOracle) (st : BgState) (accountId : String),
      getAuthenticatedAPI (pingNoThrow o) st accountId =
        getAuthenticatedAPI o st accountId) := by
  constructor
  · intro o api h
    rw [apiPing, h]
    rfl
  · intro o st accountId
    rw [getAuthenticatedAPI, getAuthenticatedAPI]
    cases lookup st.configs accountId with
    | none => rfl
    | some config =>
      dsimp only
      split
      next => rfl
      next =>
        cases validateServerUrl config.serverUrl with
        | error e => rfl
        | ok serverUrl =>
          dsimp only
          cases lookup st.apiCache accountId with
          | some api =>
            dsimp only
            rw [probeAlive_noThrow]
            split
            next => rfl
            next =>
              exact gaaTier2_noThrow o _ accountId serverUrl 1
          | none => exact gaaTier2_noThrow o st accountId serverUrl 0

/-- Witness for C6: a concrete 401 probe and a concrete state. -/
theorem C6_probe_failure_handling_witness :
    apiPing oWitness ⟨"https://example.com", none⟩ = .ok false ∧
    getAuthenticatedAPI (pingNoThrow oWitness) stWitness "acct1" =
      getAuthenticatedAPI oWitness stWitness "acct1" :=
  ⟨C6_probe_failure_handling.1 oWitness ⟨"https://example.com", none⟩ rfl,
   C6_probe_failure_handling.2 oWitness stWitness "acct1"⟩

/-- A network where every fetch rejects. -/
def oNetErr : NetOracle where
  ping := fun _ _ => .error ()
  auth := fun _ _ _ _ => .error ()
  mkdir := fun _ _ _ _ => .error ()
  uploadLinkReq := fun _ _ _ _ => .error ()
  upload := fun _ _ _ _ => .error ()
  share := fun _ _ _ => .error ()
  deleteReq := fun _ _ _ _ => .error ()

/-- C6 counterexample: on a network error, `ping` itself rejects (the
`fetch` rejection propagates out of `return response.ok`) instead of
yielding `false` as the claim states. -/
theorem C6_ping_network_error_counterexample :
    apiPing oNetErr ⟨"https://example.com", none⟩ = .error () ∧
    apiPing oNetErr ⟨"https://example.com", none⟩ ≠ .ok false := by
  constructor
  · rfl
  · intro h
    rw [show apiPing oNetErr ⟨"https://example.com", none⟩ =
      Except.error () from rfl] at h
    exact absurd h (by simp)

/-! ### Upload orchestration (`onFileUpload` / abort / delete listeners) -/

/-- `sanitizePath(config.uploadDir || "/Thunderbird-Attachments")`. -/
def uploadDirOf (config : AccountConfig) : String :=
  sanitizePath (if config.uploadDir.data = [] then "/Thunderbird-Attachments"
    else config.uploadDir)

/-- `sanitizePath(uploadDir + "/" + name)`. -/
def filePathOf (config : AccountConfig) (name : String) : String :=
  sanitizePath (uploadDirOf config ++ "/" ++ name)

/-- `if (sharePw) shareLinkOptions.password = sharePw`: only a truthy
stored share password is used. -/
def sharePwOf (raw : Option String) : Option String :=
  match raw with
  | some pw => if pw.data = [] then none else some pw
  | none => none

/-- `if (config.shareLinkExpireDays && config.shareLinkExpireDays > 0)`. -/
def expireOptOf (config : AccountConfig) : Option Int :=
  if config.shareLinkExpireDays ≠ 0 ∧ 0 < config.shareLinkExpireDays then
    some config.shareLinkExpireDays
  else none

structure PipeOut where
  res : Except JSError (ShareResp × Option String × Option Int)
  uploadAttempts : Nat
deriving Repr

/-- The step sequence of the `onFileUpload` listener after session
acquisition and config reload: ensure directory, acquire ticket, upload
the bytes (the call site passes NO abort signal), read the share password,
create the share link.  `uploadAttempts` counts invocations of the upload
request. -/
def uploadPipeline (o : NetOracle) (aborted : List String) (vault : Vault)
    (api : API) (config : AccountConfig) (name : String) : PipeOut :=
  match apiEnsureDirectory o api config.repoId (uploadDirOf config) with
  | .error e => ⟨.error e, 0⟩
  | .ok _ =>
    match apiGetUploadLink o api config.repoId (uploadDirOf config) with
    | .error e => ⟨.error e, 0⟩
    | .ok uploadLink =>
      match apiUploadFile o aborted api uploadLink (uploadDirOf config)
          name none with
      | .error e => ⟨.error e, 1⟩
      | .ok _ =>
        match validateServerUrl config.serverUrl with
        | .error e => ⟨.error e, 1⟩
        | .ok sUrl =>
          match getSecret vault sUrl REALM_SHARE_PW with
          | .error e => ⟨.error e, 1⟩
          | .ok sharePwRaw =>
            match apiCreateShareLink o api config.repoId
                (filePathOf config name) (sharePwOf sharePwRaw)
                (expireOptOf config) with
            | .error e => ⟨.error e, 1⟩
            | .ok shareResp =>
              ⟨.ok (shareResp, sharePwOf sharePwRaw, expireOptOf config), 1⟩

/-- The outward result of an upload event: the share URL with its
presentation metadata, or an error message. -/
inductive UploadResult where
  | success (url : String) (serviceUrl : String)
      (expiryDaysSet : Option Int) (passwordProtected : Bool)
  | failure (msg : String)
deriving DecidableEq, Repr

def errMsg (e : JSError) : String :=
  match e with
  | .seafile _ m => m
  | .js m => m

structure UploadOut where
  result : UploadResult
  st : BgState
  uploadAttempts : Nat
deriving Repr

/-- The `onFileUpload` listener: session, config reload, pipeline; on
success the `UploadRecord` is registered; every thrown error is caught and
returned as an error result. -/
def onFileUpload (o : NetOracle) (aborted : List String) (st : BgState)
    (accountId fileId name : String) : UploadOut :=
  match getAuthenticatedAPI o st accountId with
  | ⟨.error e, st1, _, _⟩ => ⟨.failure (errMsg e), st1, 0⟩
  | ⟨.ok api, st1, _, _⟩ =>
    match lookup st1.configs accountId with
    | none => ⟨.failure "TypeError", st1, 0⟩
    | some config =>
      match uploadPipeline o aborted st1.vault api config name with
      | ⟨.error e, n⟩ => ⟨.failure (errMsg e), st1, n⟩
      | ⟨.ok (shareResp, sharePw, expireOpt), n⟩ =>
        let entry : UploadRecord :=
          ⟨config.repoId, filePathOf config name, accountId, shareResp.token⟩
        ⟨.success shareResp.link config.serverUrl expireOpt sharePw.isSome,
         { st1 with uploadedFiles := setKey st1.uploadedFiles fileId entry },
         n⟩

/-- The `onFileUploadAbort` listener: drop the tracking entry, nothing
else. -/
def onFileUploadAbort (st : BgState) (fileId : String) : BgState :=
  { st with uploadedFiles := removeKey st.uploadedFiles fileId }

structure DeleteOut where
  st : BgState
  remoteDeleteCalls : Nat
deriving Repr

/-- The `onFileDeleted` listener: no tracking entry means a no-op;
otherwise best-effort remote delete and removal of the entry either way. -/
def onFileDeleted (o : NetOracle) (st : BgState) (accountId fileId : String) :
    DeleteOut :=
  match lookup st.uploadedFiles fileId with
  | none => ⟨st, 0⟩
  | some info =>
    match getAuthenticatedAPI o st accountId with
    | ⟨.error _, st1, _, _⟩ =>
      ⟨{ st1 with uploadedFiles := removeKey st1.uploadedFiles fileId }, 0⟩
    | ⟨.ok api, st1, _, _⟩ =>
      match apiDeleteFile o api info.repoId info.filePath with
      | _ =>
        ⟨{ st1 with uploadedFiles := removeKey st1.uploadedFiles fileId }, 1⟩

theorem gaaTier3_uploadedFiles (o : NetOracle) (st : BgState)
    (accountId serverUrl : String) (pings : Nat) :
    (gaaTier3 o st accountId serverUrl pings).st.uploadedFiles =
      st.uploadedFiles := by
  rw [gaaTier3]
  split
  any_goals rfl
  split
  any_goals rfl
  split
  any_goals rfl
  split
  any_goals rfl

theorem gaaTier2_uploadedFiles (o : NetOracle) (st : BgState)
    (accountId serverUrl : String) (pings : Nat) :
    (gaaTier2 o st accountId serverUrl pings).st.uploadedFiles =
      st.uploadedFiles := by
  rw [gaaTier2]
  split
  · rfl
  · exact gaaTier3_uploadedFiles o st accountId serverUrl pings
  · split
    · exact gaaTier3_uploadedFiles o st accountId serverUrl pings
    · split
      · rfl
      · split
        · rfl
        · exact gaaTier3_uploadedFiles o st accountId serverUrl (pings + 1)

theorem gaa_uploadedFiles (o : NetOracle) (st : BgState)
    (accountId : String) :
    (getAuthenticatedAPI o st accountId).st.uploadedFiles =
      st.uploadedFiles := by
  rw [getAuthenticatedAPI]
  split
  · rfl
  · split
    · rfl
    · split
      · rfl
      · split
        · split
          · rfl
          · exact gaaTier2_uploadedFiles o _ accountId _ 1
        · exact gaaTier2_uploadedFiles o st accountId _ 0

/-- C5: a failure at any step of the upload sequence produces an error
result and leaves the tracking table untouched; the table changes only
when the handler returns a success, and then the fileId is registered. -/
theorem C5_no_partial_success (o : NetOracle) (aborted : List String)
    (st : BgState) (accountId fileId name : String) :
    (∀ m, (onFileUpload o aborted st accountId fileId name).result =
        .failure m →
      (onFileUpload o aborted st accountId fileId name).st.uploadedFiles =
        st.uploadedFiles) ∧
    ((onFileUpload o aborted st accountId fileId name).st.uploadedFiles ≠
        st.uploadedFiles →
      (∃ url su ex pp,
        (onFileUpload o aborted st accountId fileId name).result =
          .success url su ex pp) ∧
      ∃ rec, lookup
        (onFileUpload o aborted st accountId fileId name).st.uploadedFiles
        fileId = some rec) := by
  have hpres := gaa_uploadedFiles o st accountId
  rw [onFileUpload]
  split
  next e st1 x y heq =>
    rw [heq] at hpres
    exact ⟨fun m _ => hpres, fun hne => absurd hpres hne⟩
  next api st1 x y heq =>
    rw [heq] at hpres
    split
    next => exact ⟨fun m _ => hpres, fun hne => absurd hpres hne⟩
    next config hcfg =>
      split
      next e n hpipe => exact ⟨fun m _ => hpres, fun hne => absurd hpres hne⟩
      next shareResp sharePw expireOpt n hpipe =>
        dsimp only
        constructor
        · intro m hm
          exact absurd hm (by simp)
        · intro hne
          exact ⟨⟨_, _, _, _, rfl⟩, _, lookup_setKey _ _ _⟩

/-- Witness for C5: a failing network leaves the table unchanged, and the
all-success run registers the record. -/
theorem C5_no_partial_success_witness :
    (onFileUpload oNetErr [] stWitness "acct1" "file1"
      "report.pdf").st.uploadedFiles = stWitness.uploadedFiles ∧
    ((∃ url su ex pp,
        (onFileUpload oWitness [] stWitness "acct1" "file1"
          "report.pdf").result = .success url su ex pp) ∧
      ∃ rec, lookup
        (onFileUpload oWitness [] stWitness "acct1" "file1"
          "report.pdf").st.uploadedFiles "file1" = some rec) :=
  ⟨(C5_no_partial_success oNetErr [] stWitness "acct1" "file1"
      "report.pdf").1 "NetworkError" (by rfl),
   (C5_no_partial_success oWitness [] stWitness "acct1" "file1"
      "report.pdf").2 (by decide)⟩

/-- C4: an upload ticket whose hostname differs from the session origin's
hostname fails with UntrustedUploadTarget and the pipeline never attempts
the upload; with equal hostnames the ticket URL is returned unchanged. -/
theorem C4_upload_ticket_host_check (o : NetOracle) (api : API)
    (repoId parentDir : String) (s : Nat) (linkStr : String) (u sv : URLRec)
    (hresp : o.uploadLinkReq api.serverUrl api.token repoId
      (sanitizePath parentDir) = .ok (s, linkStr))
    (hok : statusOk s = true)
    (hu : parseURL linkStr.data = some u)
    (hsv : parseURL api.serverUrl.data = some sv) :
    (u.hostname ≠ sv.hostname →
      apiGetUploadLink o api repoId parentDir =
        .error (.seafile "UPLOAD_LINK_UNTRUSTED"
          "errorUploadLinkUntrusted") ∧
      ∀ (aborted : List String) (vault : Vault) (config : AccountConfig)
        (name : String),
        config.repoId = repoId → uploadDirOf config = parentDir →
        (uploadPipeline o aborted vault api config name).uploadAttempts = 0) ∧
    (u.hostname = sv.hostname →
      apiGetUploadLink o api repoId parentDir = .ok linkStr) := by
  constructor
  · intro hne
    have hlink : apiGetUploadLink o api repoId parentDir =
        .error (.seafile "UPLOAD_LINK_UNTRUSTED"
          "errorUploadLinkUntrusted") := by
      rw [apiGetUploadLink, hresp]
      dsimp only
      rw [if_neg (by rw [hok]; simp), hu, hsv]
      dsimp only
      rw [if_pos hne]
    refine ⟨hlink, ?_⟩
    intro aborted vault config name hrepo hdir
    rw [uploadPipeline, hrepo, hdir]
    cases apiEnsureDirectory o api repoId parentDir with
    | error e => rfl
    | ok r =>
      dsimp only
      rw [hlink]
  · intro heq
    rw [apiGetUploadLink, hresp]
    dsimp only
    rw [if_neg (by rw [hok]; simp), hu, hsv]
    dsimp only
    rw [if_neg (fun h => h heq)]

/-- A network like `oWitness` whose upload ticket points at a foreign
host. -/
def oEvil : NetOracle :=
  { oWitness with
      uploadLinkReq :=
        fun _ _ _ _ => .ok (200, "https://evil.example.net/upload") }

/-- Witness for C4: a foreign-host ticket is refused with no upload
attempt; the same-host ticket is returned unchanged. -/
theorem C4_upload_ticket_host_check_witness :
    (apiGetUploadLink oEvil ⟨"https://example.com", some "tok1"⟩ "lib1"
        "/Thunderbird-Attachments" =
      .error (.seafile "UPLOAD_LINK_UNTRUSTED" "errorUploadLinkUntrusted") ∧
      (uploadPipeline oEvil [] [] ⟨"https://example.com", some "tok1"⟩
        cfgWitness "report.pdf").uploadAttempts = 0) ∧
    apiGetUploadLink oWitness ⟨"https://example.com", some "tok1"⟩ "lib1"
        "/Thunderbird-Attachments" =
      .ok "https://example.com/seafhttp/upload-api/ticket1" := by
  have huntrusted := (C4_upload_ticket_host_check oEvil
    ⟨"https://example.com", some "tok1"⟩ "lib1" "/Thunderbird-Attachments"
    200 "https://evil.example.net/upload"
    ⟨"https".data, "evil.example.net".data, none⟩
    ⟨"https".data, "example.com".data, none⟩
    (by rfl) (by decide) (by rfl) (by rfl)).1 (by decide)
  have htrusted := (C4_upload_ticket_host_check oWitness
    ⟨"https://example.com", some "tok1"⟩ "lib1" "/Thunderbird-Attachments"
    200 "https://example.com/seafhttp/upload-api/ticket1"
    ⟨"https".data, "example.com".data, none⟩
    ⟨"https".data, "example.com".data, none⟩
    (by rfl) (by decide) (by rfl) (by rfl)).2 rfl
  exact ⟨⟨huntrusted.1,
    huntrusted.2 [] [] cfgWitness "report.pdf" rfl (by decide)⟩, htrusted⟩

/-- C3 (code behavior, refuting the claim): the upload pipeline is
entirely independent of the abort state — the call site passes no
cancellation token to the upload request — and in a run where the abort
event for the file fired before the upload completed, the upload still
succeeds and an UploadRecord for the aborted fileId is registered. -/
theorem C3_abort_not_wired :
    (∀ (o : NetOracle) (aborted : List String) (vault : Vault) (api : API)
      (config : AccountConfig) (name : String),
      uploadPipeline o aborted vault api config name =
        uploadPipeline o [] vault api config name) ∧
    (onFileUpload oWitness ["file1"] (onFileUploadAbort stWitness "file1")
        "acct1" "file1" "report.pdf").result =
      .success "https://example.com/f/abc/" "https://example.com"
        (some 7) false ∧
    lookup (onFileUpload oWitness ["file1"]
        (onFileUploadAbort stWitness "file1") "acct1" "file1"
        "report.pdf").st.uploadedFiles "file1" =
      some ⟨"lib1", "/Thunderbird-Attachments/report.pdf", "acct1",
        "stok1"⟩ ∧
    (onFileDeleted oWitness
        (onFileUpload oWitness ["file1"] (onFileUploadAbort stWitness "file1")
          "acct1" "file1" "report.pdf").st
        "acct1" "file1").remoteDeleteCalls = 1 :=
  ⟨fun _ _ _ _ _ _ => rfl, by decide, by decide, by decide⟩

end Seafile
